import Mathlib

/-!
# cpu_atomic_benchmark: the adaptive sampler and the barrier of `bench.c`

A shallow embedding of `src/bench.c` and the properties of its statistics
engine (`t_val`, `avg`, `stdev`), its adaptive sampler (`bench_try`,
`benchmark_auto`) and its barrier (`barrier_wait`).

## Conventions

* The `double` arithmetic is a parameter: an `Arith F` gives the type `F` of
  doubles, the conversions from integers and from decimal literals, the four
  operations, `sqrt`, the comparison `<` and the truth value of a double. Every
  definition that computes on doubles applies these operations in the order of
  the source and assumes nothing about them; a theorem stated for every `Arith`
  therefore holds for IEEE 754 binary64 with its rounding, infinities and NaN
  (the instance `ieee`). Where a statement needs a fact of the arithmetic, the
  fact is a hypothesis.
* The two tables of `t_val` hold decimal literals and are kept as exact
  rationals; `t_val` only selects an entry, which `bench_try` converts with
  `Arith.lit`.
* An `unsigned` is a natural number, reduced modulo `2^32` where the source can
  overflow (`iters *= 2`, the barrier decrement); `UINT_MAX = 2^32 - 1`.
* One call of `bench_once` is answered by a runner `elapsed k iters`: the
  nanoseconds `t2 - t1` that worker 0 measures in the `k`-th run of the process
  when asked for `iters` iterations. The runner stands for the payload callbacks,
  the clock and the scheduling of the workers.
* `stderr` is a list of lines carried in the `World`, next to the number of runs
  made so far; a diagnostic line holds the arguments of its `fprintf`.
* A `for` loop with a bound becomes a recursion on the iterations still to run.
  The discovery loop of `benchmark_auto` has no bound that the source enforces,
  so it takes fuel and returns `none` when the fuel runs out.
* `struct thrarg` is declared in `bench.h`, which is not among the sources; its
  fields are taken from their uses in `bench.c`.
* Worked runs are evaluated in `exactQ`, the arithmetic of exact rationals, on
  inputs where no outcome depends on a division by zero or on a close
  comparison.
-/

namespace Bench

/-! ## Constants and tables -/

/-- `UINT_MAX` of `<limits.h>` for a 32-bit `unsigned`. -/
def UINT_MAX : Nat := 4294967295

/-- `ENOSPC` of `<errno.h>`. -/
def ENOSPC : Int := 28

/-- `student_1_30` (bench.c:50): entry `k` is the two-sided 95% critical value
for `k` degrees of freedom, entry `0` is a filler. -/
def student_1_30 : List ℚ :=
  [0, 12.71,
   4.303, 3.182, 2.776, 2.571, 2.447, 2.365, 2.306, 2.262, 2.228, 2.201, 2.179,
   2.160, 2.145, 2.131, 2.120, 2.110, 2.101, 2.093, 2.086, 2.080, 2.074, 2.069,
   2.064, 2.060, 2.056, 2.052, 2.048, 2.045, 2.042]

/-- `student_sparse` (bench.c:55): pairs (breakpoint, value). -/
def student_sparse : List (ℚ × ℚ) :=
  [(30, 2.042), (40, 2.021), (60, 2.000), (80, 1.990), (100, 1.984), (1000, 1.962)]

/-- The `for (i = 1; i < len; i++)` loop of `t_val` (bench.c:71-75); the first
argument counts the iterations still to run, `len - i`. -/
def t_val_loop (n : Nat) : Nat → Nat → ℚ
  | 0, i => (student_sparse.getD (i - 1) (0, 0)).2
  | fuel + 1, i =>
    if (student_sparse.getD i (0, 0)).1 > (n : ℚ) then
      (student_sparse.getD (i - 1) (0, 0)).2
    else
      t_val_loop n fuel (i + 1)

/-- `t_val` (bench.c:64). -/
def t_val (n : Nat) : ℚ :=
  if n ≤ 30 then student_1_30.getD n 0
  else t_val_loop n (student_sparse.length - 1) 1

/-! ## Double arithmetic -/

/-- The arithmetic on `double` that `bench.c` uses, on a type `F` of doubles:
`ofNat` is the conversion of an unsigned integer value (`(double)iters`, the
implicit conversions of `t2 - t1`, `n`, `n - 1`, `mt` and `1000*1000`), `lit` the
double that a decimal literal or table entry denotes, `lt a b` the C expression
`a < b`, and `nonzero a` the truth value of `a` in a condition. -/
structure Arith (F : Type) where
  ofNat : Nat → F
  lit : ℚ → F
  add : F → F → F
  sub : F → F → F
  mul : F → F → F
  div : F → F → F
  sqrt : F → F
  lt : F → F → Bool
  nonzero : F → Bool

/-- The arithmetic of IEEE 754 binary64 as `Float` computes it, with the C
meaning of each operation: comparisons with a NaN are false and a NaN counts as
non-zero. A literal is converted by one division of its numerator by its
denominator, which is the correctly rounded value when both are below `2^53`, as
for every literal of `bench.c`. The operations of `Float` are not unfolded in
proofs, so the theorems below are stated for every `Arith`, this one included. -/
def ieee : Arith Float :=
  { ofNat := fun n => n.toFloat,
    lit := fun q => Float.ofInt q.num / q.den.toFloat,
    add := fun a b => a + b,
    sub := fun a b => a - b,
    mul := fun a b => a * b,
    div := fun a b => a / b,
    sqrt := Float.sqrt,
    lt := fun a b => decide (a < b),
    nonzero := fun a => a != 0 }

/-! ## Data model -/

/-- Modelled from the spec: the `params` member of `struct thrarg`, declared in
`bench.h` (not part of the sources). The two callbacks `init` and `benchmark`
are represented by the runner that answers `bench_once`. -/
structure Params (F : Type) where
  threads : Nat
  iters : Nat
  id : Nat
  min_time : Nat
  max_samples : Nat
  max_error : F
  print_samples : Bool
deriving DecidableEq

/-- Modelled from the spec: the `result` member of `struct thrarg`, declared in
`bench.h` (not part of the sources). -/
structure Result (F : Type) where
  avg : F
  sum : F
  samples : Nat
  iters : Nat
  sdev : F
  u : F
  err : F
deriving DecidableEq

/-- Modelled from the spec: `struct thrarg` of `bench.h`, the execution context. -/
structure thrarg (F : Type) where
  params : Params F
  result : Result F
deriving DecidableEq

/-- One line written to `stderr` by `bench_try`: a raw sample
(`"%f\n"`, bench.c:309) or the diagnostic line of bench.c:312, each with the
arguments passed to `fprintf`. -/
inductive Line (F : Type) where
  | sample (x : F)
  | diag (i n : Nat) (sdev u e a : F)
deriving DecidableEq

/-- What the sampler changes outside the context: the number of runs
(`bench_once` calls) made so far and the text written to `stderr`. -/
structure World (F : Type) where
  calls : Nat
  stderr : List (Line F)
deriving DecidableEq

/-- The context after a run at `iters` iterations in which worker 0 measured
`dt` nanoseconds: `params.iters = iters` (bench.c:157), `result.avg =
(t2 - t1)/(double)iters` and `result.sum = t2 - t1` (bench.c:141-142, 189-190). -/
def with_run {F : Type} (A : Arith F) (t : thrarg F) (iters dt : Nat) : thrarg F :=
  { params := { t.params with iters := iters },
    result := { t.result with avg := A.div (A.ofNat dt) (A.ofNat iters), sum := A.ofNat dt } }

/-- `bench_once` (bench.c:146-191 and 232): one synchronised run of all workers;
`elapsed w.calls iters` is worker 0's `t2 - t1`. -/
def bench_once {F : Type} (A : Arith F) (elapsed : Nat → Nat → Nat) (t : thrarg F)
    (iters : Nat) (w : World F) : thrarg F × World F :=
  (with_run A t iters (elapsed w.calls iters), { w with calls := w.calls + 1 })

/-! ## Statistics engine -/

/-- `sqr` (bench.c:234). -/
def sqr {F : Type} (A : Arith F) (x : F) : F := A.mul x x

/-- The accumulation loop of `avg` (bench.c:242-244): `sum` after `i` iterations. -/
def avg_loop {F : Type} (A : Arith F) (samples : Nat → F) : Nat → F
  | 0 => A.lit 0
  | i + 1 => A.add (avg_loop A samples i) (samples i)

/-- `avg` (bench.c:239). -/
def avg {F : Type} (A : Arith F) (n : Nat) (samples : Nat → F) : F :=
  A.div (avg_loop A samples n) (A.ofNat n)

/-- The accumulation loop of `stdev` (bench.c:252-255): `var` after `i` iterations. -/
def stdev_loop {F : Type} (A : Arith F) (samples : Nat → F) (avg : F) : Nat → F
  | 0 => A.lit 0
  | i + 1 => A.add (stdev_loop A samples avg i) (sqr A (A.sub avg (samples i)))

/-- `stdev` (bench.c:249). -/
def stdev {F : Type} (A : Arith F) (n : Nat) (samples : Nat → F) (avg : F) : F :=
  let var := stdev_loop A samples avg n
  let n := if n ≤ 1 then 2 else n
  A.sqrt (A.div var (A.ofNat (n - 1)))

/-! ## Inner loop: `bench_try` -/

/-- `min_samples` of `bench_try` (bench.c:264). -/
def min_samples : Nat := 10

/-- The local variables of `bench_try` that its loop changes. The array
`samples` (zeroed by `calloc`) is a function from index to value. -/
structure TryState (F : Type) where
  sum : F
  avg : F
  std_dev : F
  u : F
  e : F
  n : Nat
  success : Bool
  samples : Nat → F

/-- The locals of `bench_try` on entry to its loop (bench.c:265-280). -/
def TryState.init {F : Type} (A : Arith F) : TryState F :=
  { sum := A.lit 0, avg := A.lit 0, std_dev := A.lit 1, u := A.lit 1, e := A.lit 1, n := 0,
    success := false, samples := fun _ => A.lit 0 }

/-- The `for (i = 0; i < max_samples; i++)` loop of `bench_try`
(bench.c:281-297); the first numeric argument counts the iterations still to
run, `max_samples - i`. `n` never exceeds `max_samples`, an `unsigned`, so its
conversion to the `unsigned` parameter of `t_val` changes nothing. -/
def bench_try_loop {F : Type} (A : Arith F) (elapsed : Nat → Nat → Nat) (iters : Nat)
    (error : F) : Nat → Nat → TryState F → thrarg F → World F →
    TryState F × thrarg F × World F
  | 0, _, s, t, w => (s, t, w)
  | fuel + 1, i, s, t, w =>
    let r := bench_once A elapsed t iters w
    let samples := Function.update s.samples i r.1.result.avg
    let sum := A.add s.sum (samples i)
    let n := i + 1
    if n < min_samples then
      bench_try_loop A elapsed iters error fuel (i + 1)
        { s with samples := samples, sum := sum, n := n } r.1 r.2
    else
      let avg := A.div sum (A.ofNat n)
      let std_dev := stdev A n samples avg
      let tv := A.lit (t_val n)
      let u := A.mul std_dev tv
      let e := A.div u avg
      if A.lt e error = true then
        ({ sum := sum, avg := avg, std_dev := std_dev, u := u, e := e, n := n,
           success := true, samples := samples }, r.1, r.2)
      else
        bench_try_loop A elapsed iters error fuel (i + 1)
          { sum := sum, avg := avg, std_dev := std_dev, u := u, e := e, n := n,
            success := s.success, samples := samples } r.1 r.2

/-- The effective sample bound of `bench_try` (bench.c:269). -/
def max_samples_of {F : Type} (t : thrarg F) : Nat :=
  if t.params.max_samples ≠ 0 then t.params.max_samples else 400

/-- The effective threshold of `bench_try` (bench.c:271). -/
def error_of {F : Type} (A : Arith F) (t : thrarg F) : F :=
  if A.nonzero t.params.max_error = true then A.div t.params.max_error (A.lit 100)
  else A.lit 0.05

/-- `bench_try` (bench.c:262): returns `success`, the context and the world. -/
def bench_try {F : Type} (A : Arith F) (elapsed : Nat → Nat → Nat) (t : thrarg F)
    (iters : Nat) (w : World F) : Bool × thrarg F × World F :=
  let print_samples := t.params.print_samples
  let max_samples := max_samples_of t
  let error := error_of A t
  if max_samples < min_samples then (false, t, w)
  else
    let r := bench_try_loop A elapsed iters error max_samples 0 (TryState.init A) t w
    let s := r.1
    let t1 : thrarg F :=
      { params := r.2.1.params,
        result := { avg := s.avg, samples := s.n, iters := iters, sum := s.sum,
                    sdev := s.std_dev, u := s.u, err := s.e } }
    let out1 := if print_samples then (List.range s.n).map (fun i => Line.sample (s.samples i))
                else []
    let out2 := [Line.diag iters s.n s.std_dev s.u s.e s.avg]
    (s.success, t1, { r.2.2 with stderr := r.2.2.stderr ++ out1 ++ out2 })

/-! ## Outer loops: `benchmark_auto` -/

/-- The statement `success = min(bench_try(thrarg, iters), success);`
(bench.c:346) with `min` expanded (bench.c:45):
`success = ((bench_try(..)) < (success)) ? (bench_try(..)) : (success);`. -/
def min_try {F : Type} (A : Arith F) (elapsed : Nat → Nat → Nat) (iters : Nat)
    (success : Bool) (t : thrarg F) (w : World F) : Bool × thrarg F × World F :=
  let a := bench_try A elapsed t iters w
  if a.1 < success then bench_try A elapsed a.2.1 iters a.2.2
  else (success, a.2.1, a.2.2)

/-- The `for (j=0; j<3; j++)` loop of a round (bench.c:345-348); the first
numeric argument counts the iterations still to run. The second statement is
`error = max(thrarg->result.err,error);` with `max` expanded (bench.c:46). -/
def round_loop {F : Type} (A : Arith F) (elapsed : Nat → Nat → Nat) (iters : Nat) :
    Nat → Bool → F → thrarg F → World F → Bool × F × thrarg F × World F
  | 0, success, error, t, w => (success, error, t, w)
  | j + 1, success, error, t, w =>
    let r := min_try A elapsed iters success t w
    let error1 := if A.lt r.2.1.result.err error = true then error else r.2.1.result.err
    round_loop A elapsed iters j r.1 error1 r.2.1 r.2.2

/-- One round (bench.c:343-348): `success`, `error`, context and world after it. -/
def round {F : Type} (A : Arith F) (elapsed : Nat → Nat → Nat) (iters : Nat) (t : thrarg F)
    (w : World F) : Bool × F × thrarg F × World F :=
  round_loop A elapsed iters 3 true (A.lit 0) t w

/-- The iteration-count discovery loop (bench.c:330-334). The loop has no bound
in the source, so the first argument is fuel: `none` means the fuel ran out
before the loop ended. -/
def discover {F : Type} (A : Arith F) (elapsed : Nat → Nat → Nat) (min_time_ns : F) :
    Nat → Nat → thrarg F → World F → Option (Nat × thrarg F × World F)
  | 0, _, _, _ => none
  | fuel + 1, iters, t, w =>
    if iters < UINT_MAX then
      let r := bench_once A elapsed t iters w
      if A.lt min_time_ns r.1.result.sum = true then some (iters, r.1, r.2)
      else discover A elapsed min_time_ns fuel (iters * 2 % 2 ^ 32) r.1 r.2
    else some (iters, t, w)

/-- The backoff loop `for (i = 0; i < 64 && iters <= max_iters; i++)`
(bench.c:340-358); the first numeric argument counts the rounds still allowed,
`64 - i`. `success` is the variable of that name (not yet assigned before the
first round). -/
def backoff {F : Type} (A : Arith F) (elapsed : Nat → Nat → Nat) :
    Nat → Nat → F → Bool → thrarg F → World F → Bool × thrarg F × World F
  | 0, _, _, success, t, w => (success, t, w)
  | r + 1, iters, last_error, success, t, w =>
    if iters ≤ UINT_MAX then
      let last_arg := t
      let x := round A elapsed iters t w
      if x.1 then (x.1, x.2.2.1, x.2.2.2)
      else if A.lt last_error x.2.1 = true then (x.1, last_arg, x.2.2.2)
      else backoff A elapsed r (iters * 2 % 2 ^ 32) x.2.1 x.1 x.2.2.1 x.2.2.2
    else (success, t, w)

/-- The floor `min_time_ns` of `benchmark_auto` (bench.c:322-323). -/
def min_time_ns_of {F : Type} (A : Arith F) (t : thrarg F) : F :=
  if t.params.min_time ≠ 0 then A.ofNat t.params.min_time else A.ofNat (1000 * 1000)

/-- `benchmark_auto` (bench.c:317): the returned `int`, the context and the
world; `none` when the discovery loop did not end within `fuel` iterations. -/
def benchmark_auto {F : Type} (A : Arith F) (elapsed : Nat → Nat → Nat) (fuel : Nat)
    (t : thrarg F) (w : World F) : Option (Int × thrarg F × World F) :=
  match discover A elapsed (min_time_ns_of A t) fuel 10 t w with
  | none => none
  | some d =>
    if d.1 > UINT_MAX then some (-ENOSPC, d.2.1, d.2.2)
    else
      let b := backoff A elapsed 64 d.1 (A.lit 100) false d.2.1 d.2.2
      some (if b.1 then 1 else 0, b.2.1, b.2.2)

/-! ## Barrier -/

/-- Where a worker stands in `thread` (bench.c:125) relative to `barrier_wait`
(bench.c:115): before the atomic decrement (running `params.init`), in the spin
loop holding the local `val`, or past the fence (taking `t1`, running the
payload). -/
inductive Pc where
  | init
  | spin (val : Nat)
  | released
deriving DecidableEq

/-- The shared barrier counter `shared->barrier` of one run and the position of
every worker. -/
structure Shared where
  barrier : Nat
  pc : Nat → Pc

/-- The state `bench_once` sets up before it starts the workers:
`shared->barrier = nthreads` (bench.c:163, 205). -/
def Shared.start (nthreads : Nat) : Shared :=
  { barrier := nthreads, pc := fun _ => Pc.init }

/-- One atomic step of worker `tid` in `barrier_wait`:
`val = __atomic_sub_fetch(barrier, 1)` on a `uint32_t` (bench.c:117); one
evaluation of the loop condition `val != 0`, followed by the load
`val = __atomic_load_n(barrier)` or by leaving the loop (bench.c:119-122). -/
def barrier_step (nthreads : Nat) (s : Shared) (tid : Nat) : Shared :=
  if tid < nthreads then
    match s.pc tid with
    | Pc.init =>
      let val := (s.barrier + 2 ^ 32 - 1) % 2 ^ 32
      { barrier := val, pc := Function.update s.pc tid (Pc.spin val) }
    | Pc.spin val =>
      if val ≠ 0 then { s with pc := Function.update s.pc tid (Pc.spin s.barrier) }
      else { s with pc := Function.update s.pc tid Pc.released }
    | Pc.released => s
  else s

/-- The state after the workers took their steps in the order `sched`
(an interleaving). -/
def barrier_run (nthreads : Nat) (s : Shared) : List Nat → Shared
  | [] => s
  | tid :: sched => barrier_run nthreads (barrier_step nthreads s tid) sched

/-- The number of steps of the interleaving `sched` in which the counter changes
from a non-zero value to zero. -/
def zero_hits (nthreads : Nat) (s : Shared) : List Nat → Nat
  | [] => 0
  | tid :: sched =>
    (if s.barrier ≠ 0 ∧ (barrier_step nthreads s tid).barrier = 0 then 1 else 0) +
      zero_hits nthreads (barrier_step nthreads s tid) sched

/-- The invariant of the barrier: the counter equals the number of workers that
have not yet decremented it, and a worker that read zero did so when the counter
was zero. -/
def barrier_inv (nthreads : Nat) (s : Shared) : Prop :=
  s.barrier = ((Finset.range nthreads).filter (fun v => s.pc v = Pc.init)).card ∧
  (∀ v, v < nthreads → s.pc v = Pc.spin 0 → s.barrier = 0) ∧
  (∀ v, v < nthreads → s.pc v = Pc.released → s.barrier = 0)

/-! ## Reference quantities used by the statements -/

/-- The iteration counts reached by doubling from `min_iters = 10` in a 32-bit
`unsigned`: 10, 20, ..., 10 * 2^28, then 2^30, 2^31, 0, 0, ... -/
def doubled : Nat → Nat
  | 0 => 10
  | j + 1 => doubled j * 2 % 2 ^ 32

/-- The per-run average that the `j`-th run of a `bench_try` entered in world
`w` stores in `samples[j]` (bench.c:141, 283). -/
def sample_at {F : Type} (A : Arith F) (elapsed : Nat → Nat → Nat) (iters : Nat)
    (w : World F) (j : Nat) : F :=
  A.div (A.ofNat (elapsed (w.calls + j) iters)) (A.ofNat iters)

/-- The relative error of the first `n` samples as `bench_try` computes it:
`u = std_dev * t_val(n)`, `e = u / avg` (bench.c:288-292), with the mean of `avg`
and the deviation of `stdev`. -/
def rel_error {F : Type} (A : Arith F) (n : Nat) (samples : Nat → F) : F :=
  A.div (A.mul (stdev A n samples (avg A n samples)) (A.lit (t_val n))) (avg A n samples)

/-- The locals of `bench_try` after `i` samples of the stream `smp`. -/
def try_state {F : Type} (A : Arith F) (smp : Nat → F) (i : Nat) (success : Bool) :
    TryState F :=
  { sum := avg_loop A smp i,
    avg := if i < min_samples then A.lit 0 else avg A i smp,
    std_dev := if i < min_samples then A.lit 1 else stdev A i smp (avg A i smp),
    u := if i < min_samples then A.lit 1
         else A.mul (stdev A i smp (avg A i smp)) (A.lit (t_val i)),
    e := if i < min_samples then A.lit 1 else rel_error A i smp,
    n := i,
    success := success,
    samples := fun j => if j < i then smp j else A.lit 0 }

/-- The result record `bench_try` writes after `n ≥ 10` samples of the stream
`smp` (bench.c:299-305). -/
def try_result {F : Type} (A : Arith F) (smp : Nat → F) (iters n : Nat) : Result F :=
  { avg := avg A n smp, sum := avg_loop A smp n, samples := n, iters := iters,
    sdev := stdev A n smp (avg A n smp),
    u := A.mul (stdev A n smp (avg A n smp)) (A.lit (t_val n)),
    err := rel_error A n smp }

/-- The lines `bench_try` writes to `stderr` after `n` samples of the stream
`smp` (bench.c:307-313). -/
def try_output {F : Type} (A : Arith F) (smp : Nat → F) (iters n : Nat)
    (print_samples : Bool) : List (Line F) :=
  (if print_samples then (List.range n).map (fun i => Line.sample (smp i)) else []) ++
    [Line.diag iters n (stdev A n smp (avg A n smp))
      (A.mul (stdev A n smp (avg A n smp)) (A.lit (t_val n)))
      (rel_error A n smp) (avg A n smp)]

/-- What `bench_try` returns after `n ≥ 10` samples of the stream it reads in
world `w`: the flag, the context and the world. -/
def try_outcome {F : Type} (A : Arith F) (elapsed : Nat → Nat → Nat) (t : thrarg F)
    (iters : Nat) (w : World F) (n : Nat) (success : Bool) : Bool × thrarg F × World F :=
  (success,
   { params := { t.params with iters := iters },
     result := try_result A (sample_at A elapsed iters w) iters n },
   { calls := w.calls + n,
     stderr := w.stderr ++
       try_output A (sample_at A elapsed iters w) iters n t.params.print_samples })

/-- The facts of the arithmetic under which ten equal samples `c` have mean `c`,
deviation 0 and relative error 0 in `bench_try`: the running sum of ten `c`
divided by 10 is `c` again, and the identities `c - c = 0`, `0 * 0 = 0`,
`0 + 0 = 0`, `0 / 9 = 0`, `sqrt 0 = 0`, `0 * t_val(10) = 0`, `0 / c = 0`. In IEEE
754 arithmetic the identities hold for every finite `c > 0`; the first fact holds
when no rounding occurs in the sum and the quotient. -/
structure ConstExact {F : Type} (A : Arith F) (c : F) : Prop where
  mean : A.div (avg_loop A (fun _ => c) 10) (A.ofNat 10) = c
  sub_self : A.sub c c = A.lit 0
  sqr_zero : A.mul (A.lit 0) (A.lit 0) = A.lit 0
  add_zero : A.add (A.lit 0) (A.lit 0) = A.lit 0
  zero_div_nine : A.div (A.lit 0) (A.ofNat 9) = A.lit 0
  sqrt_zero : A.sqrt (A.lit 0) = A.lit 0
  zero_mul_t : A.mul (A.lit 0) (A.lit (t_val 10)) = A.lit 0
  zero_div : A.div (A.lit 0) c = A.lit 0

/-- The context `bench_try` leaves after 10 samples `c` under `ConstExact`:
mean `c`, deviation 0, half-width 0, relative error 0. -/
def const_ctx {F : Type} (A : Arith F) (t : thrarg F) (iters : Nat) (c : F) : thrarg F :=
  { params := { t.params with iters := iters },
    result := { avg := c, sum := avg_loop A (fun _ => c) 10,
                samples := 10, iters := iters, sdev := A.lit 0, u := A.lit 0,
                err := A.lit 0 } }

/-! ## Worked inputs -/

/-- Bisection for the integer square root: the largest `lo` with `lo * lo ≤ n`
between the bounds, given enough steps. -/
def isqrt_loop (n : Nat) : Nat → Nat → Nat → Nat
  | 0, lo, _ => lo
  | fuel + 1, lo, hi =>
    if hi ≤ lo + 1 then lo
    else
      let mid := (lo + hi) / 2
      if mid * mid ≤ n then isqrt_loop n fuel mid hi else isqrt_loop n fuel lo mid

/-- A computable square root for the worked runs: the square root rounded down
to a multiple of `10^-6`, for arguments below `2^80`. -/
def sqrt_q (x : ℚ) : ℚ :=
  (isqrt_loop ((x * 1000000000000).num.toNat / (x * 1000000000000).den) 128 0
    ((x * 1000000000000).num.toNat / (x * 1000000000000).den + 1) : ℚ) / 1000000

/-- The arithmetic of exact rationals, used for the worked runs: no rounding,
`sqrt_q` for the square root. -/
def exactQ : Arith ℚ :=
  { ofNat := fun n => (n : ℚ),
    lit := fun q => q,
    add := fun a b => a + b,
    sub := fun a b => a - b,
    mul := fun a b => a * b,
    div := fun a b => a / b,
    sqrt := sqrt_q,
    lt := fun a b => decide (a < b),
    nonzero := fun a => decide (a ≠ 0) }

/-- A context with every field zero: the defaults of `bench_try` and
`benchmark_auto` apply (400 samples, 5%, 1 ms). -/
def ctx0 : thrarg ℚ :=
  { params := { threads := 1, iters := 0, id := 0, min_time := 0, max_samples := 0,
                max_error := 0, print_samples := false },
    result := { avg := 0, sum := 0, samples := 0, iters := 0, sdev := 0, u := 0, err := 0 } }

/-- The world before the first run. -/
def world0 : World ℚ := { calls := 0, stderr := [] }

/-- The context `ctx0` with a sample bound of 10. -/
def ctx10 : thrarg ℚ := { ctx0 with params := { ctx0.params with max_samples := 10 } }

/-- The context `ctx0` with a sample bound of 5, below `min_samples`. -/
def ctx5 : thrarg ℚ := { ctx0 with params := { ctx0.params with max_samples := 5 } }

/-- A runner that takes 200000 ns per iteration in every run: no variance. -/
def el_const : Nat → Nat → Nat := fun _ it => 200000 * it

/-- A runner that takes 30000 ns per iteration in every run. -/
def el_slow : Nat → Nat := fun it => 30000 * it

/-- A runner that takes 100000 ns per iteration: exactly the default floor of
1 ms at 10 iterations. -/
def el_floor : Nat → Nat → Nat := fun _ it => 100000 * it

/-- A runner whose runs 1 to 4 take 3.8 ms, 0.2 ms, 3.8 ms, 0.2 ms and every
other run 2 ms: the first ten samples after the discovery run are noisy, all
later ones equal. -/
def el_noisy : Nat → Nat → Nat := fun k _ =>
  if k = 1 ∨ k = 3 then 3800000 else if k = 2 ∨ k = 4 then 200000 else 2000000

/-- A runner whose runs 0 and 1 take 10525 ns and 9475 ns and every other run
10000 ns: at 100 iterations the samples are 105.25, 94.75, 100, 100, ... -/
def el_settle : Nat → Nat → Nat := fun k _ =>
  if k = 0 then 10525 else if k = 1 then 9475 else 10000

/-- A context with a floor of 20 s and a sample bound of 10. -/
def ctx_wrap : thrarg ℚ :=
  { ctx0 with params := { ctx0.params with min_time := 20000000000, max_samples := 10 } }

/-- A runner of 10 ns per iteration during discovery (runs 0 to 28). From run
29 on, in every block of ten runs the first four take `10 + 3d`, `10 - 3d`,
`10 + 3d`, `10 - 3d` ns per iteration and the other six 10, with `d = 1` up to
run 68 and `d = 2` after. -/
def el_wrap : Nat → Nat → Nat := fun k it =>
  if k < 29 then it * 10
  else
    let p := (k - 29) % 10
    let d := if k < 69 then 1 else 2
    if p = 0 ∨ p = 2 then it * (10 + 3 * d)
    else if p = 1 ∨ p = 3 then it * (10 - 3 * d)
    else it * 10


/-! ## The critical-value lookup -/

/-- The value of `t_val` above 30, by interval. -/
theorem t_val_piecewise (n : Nat) (h : 30 < n) :
    t_val n = if n < 40 then 2.042 else if n < 60 then 2.021 else if n < 80 then 2.000
      else if n < 100 then 1.990 else if n < 1000 then 1.984 else 1.962 := by
  have h1 : ¬ n ≤ 30 := by omega
  have c40 : ((40 : ℚ) > (n : ℚ)) ↔ n < 40 := by
    rw [gt_iff_lt]; exact_mod_cast Iff.rfl
  have c60 : ((60 : ℚ) > (n : ℚ)) ↔ n < 60 := by
    rw [gt_iff_lt]; exact_mod_cast Iff.rfl
  have c80 : ((80 : ℚ) > (n : ℚ)) ↔ n < 80 := by
    rw [gt_iff_lt]; exact_mod_cast Iff.rfl
  have c100 : ((100 : ℚ) > (n : ℚ)) ↔ n < 100 := by
    rw [gt_iff_lt]; exact_mod_cast Iff.rfl
  have c1000 : ((1000 : ℚ) > (n : ℚ)) ↔ n < 1000 := by
    rw [gt_iff_lt]; exact_mod_cast Iff.rfl
  simp only [t_val, h1, if_false, student_sparse, List.length_cons, List.length_nil,
    t_val_loop, List.getD_cons_succ, List.getD_cons_zero, c40, c60, c80, c100, c1000]
  norm_num

/-- C9. For every `n > 30`, `t_val(n)` is the value attached to the largest
breakpoint of `student_sparse` that does not exceed `n`, and `t_val(m) ≤ t_val(n)`
for all `30 < n ≤ m`. -/
theorem t_val_sparse (n : Nat) (h : 30 < n) :
    (∃ p ∈ student_sparse, p.1 ≤ (n : ℚ) ∧ t_val n = p.2 ∧
      ∀ q ∈ student_sparse, q.1 ≤ (n : ℚ) → q.1 ≤ p.1) ∧
    ∀ m : Nat, n ≤ m → t_val m ≤ t_val n := by
  constructor
  · rw [t_val_piecewise n h]
    have e40 : ((40 : ℚ) ≤ (n : ℚ)) ↔ 40 ≤ n := by exact_mod_cast Iff.rfl
    have e60 : ((60 : ℚ) ≤ (n : ℚ)) ↔ 60 ≤ n := by exact_mod_cast Iff.rfl
    have e80 : ((80 : ℚ) ≤ (n : ℚ)) ↔ 80 ≤ n := by exact_mod_cast Iff.rfl
    have e100 : ((100 : ℚ) ≤ (n : ℚ)) ↔ 100 ≤ n := by exact_mod_cast Iff.rfl
    have e1000 : ((1000 : ℚ) ≤ (n : ℚ)) ↔ 1000 ≤ n := by exact_mod_cast Iff.rfl
    have e30 : ((30 : ℚ) ≤ (n : ℚ)) ↔ 30 ≤ n := by exact_mod_cast Iff.rfl
    simp only [student_sparse, List.mem_cons, List.mem_singleton, List.not_mem_nil, or_false,
      exists_eq_or_imp, forall_eq_or_imp, exists_eq_left, forall_eq, e30, e40, e60, e80, e100, e1000]
    by_cases a : n < 40
    · left; simp only [a, if_true]; norm_num; omega
    by_cases b : n < 60
    · right; left; simp only [a, b, if_true, if_false]; norm_num; omega
    by_cases c : n < 80
    · right; right; left; simp only [a, b, c, if_true, if_false]; norm_num; omega
    by_cases d : n < 100
    · right; right; right; left; simp only [a, b, c, d, if_true, if_false]; norm_num; omega
    by_cases e : n < 1000
    · right; right; right; right; left; simp only [a, b, c, d, e, if_true, if_false]; norm_num; omega
    · right; right; right; right; right; simp only [a, b, c, d, e, if_true, if_false]; norm_num; omega
  · intro m hm
    rw [t_val_piecewise n h, t_val_piecewise m (by omega)]
    split_ifs <;> first | omega | norm_num

/-- The statement above at `n = 45`, between the breakpoints 40 and 60. -/
theorem t_val_sparse_witness :
    (∃ p ∈ student_sparse, p.1 ≤ ((45 : Nat) : ℚ) ∧ t_val 45 = p.2 ∧
      ∀ q ∈ student_sparse, q.1 ≤ ((45 : Nat) : ℚ) → q.1 ≤ p.1) ∧
    ∀ m : Nat, 45 ≤ m → t_val m ≤ t_val 45 :=
  t_val_sparse 45 (by decide)


/-! ## Statistics lemmas -/

theorem stdev_loop_congr {F : Type} (A : Arith F) (f g : Nat → F) (a : F) :
    ∀ n, (∀ j, j < n → f j = g j) → stdev_loop A f a n = stdev_loop A g a n := by
  intro n
  induction n with
  | zero => intro _; rfl
  | succ n ih =>
    intro h
    simp only [stdev_loop]
    rw [ih (fun j hj => h j (by omega)), h n (by omega)]

theorem stdev_congr {F : Type} (A : Arith F) (f g : Nat → F) (a : F) (n : Nat)
    (h : ∀ j, j < n → f j = g j) : stdev A n f a = stdev A n g a := by
  simp only [stdev, stdev_loop_congr A f g a n h]

theorem update_initial {F : Type} (z : F) (smp : Nat → F) (i : Nat) :
    Function.update (fun j => if j < i then smp j else z) i (smp i) =
      fun j => if j < i + 1 then smp j else z := by
  funext j
  by_cases h : j = i
  · subst h; simp
  · rw [Function.update_noteq h]
    by_cases h1 : j < i
    · simp [h1, Nat.lt_succ_of_lt h1]
    · have h2 : ¬ j < i + 1 := by omega
      simp [h1, h2]

theorem stdev_initial {F : Type} (A : Arith F) (z : F) (smp : Nat → F) (a : F) (n : Nat) :
    stdev A n (fun j => if j < n then smp j else z) a = stdev A n smp a :=
  stdev_congr A _ _ a n (fun j hj => by simp [hj])

/-! ## The loop of `bench_try` -/

/-- One iteration of the loop of `bench_try`, from the state after `i` samples. -/
theorem bench_try_loop_step {F : Type} (A : Arith F) (elapsed : Nat → Nat → Nat)
    (iters : Nat) (error : F) (smp : Nat → F) (fuel i : Nat) (t : thrarg F) (w : World F)
    (hs : smp i = A.div (A.ofNat (elapsed w.calls iters)) (A.ofNat iters)) :
    bench_try_loop A elapsed iters error (fuel + 1) i (try_state A smp i false) t w =
      if i + 1 < min_samples ∨ ¬ (A.lt (rel_error A (i + 1) smp) error = true) then
        bench_try_loop A elapsed iters error fuel (i + 1)
          (try_state A smp (i + 1) false)
          (with_run A t iters (elapsed w.calls iters)) { w with calls := w.calls + 1 }
      else
        (try_state A smp (i + 1) true,
          with_run A t iters (elapsed w.calls iters), { w with calls := w.calls + 1 }) := by
  have hupd : Function.update (try_state A smp i false).samples i
      (bench_once A elapsed t iters w).1.result.avg =
      fun j => if j < i + 1 then smp j else A.lit 0 := by
    have : (bench_once A elapsed t iters w).1.result.avg = smp i := by rw [hs]; rfl
    rw [this]; exact update_initial (A.lit 0) smp i
  have hsum : A.add (try_state A smp i false).sum (smp i) = avg_loop A smp (i + 1) := rfl
  rw [bench_try_loop]
  simp only [hupd]
  simp only [Nat.lt_succ_self, if_true, hsum]
  by_cases h10 : i + 1 < min_samples
  · have hi : i < min_samples := by omega
    simp only [h10, if_true, true_or, try_state, hi]
    rfl
  · have e1 : A.div (avg_loop A smp (i + 1)) (A.ofNat (i + 1)) = avg A (i + 1) smp := rfl
    have e2 : stdev A (i + 1) (fun j => if j < i + 1 then smp j else A.lit 0)
        (avg A (i + 1) smp) = stdev A (i + 1) smp (avg A (i + 1) smp) :=
      stdev_initial A _ smp _ _
    have e3 : A.div (A.mul (stdev A (i + 1) smp (avg A (i + 1) smp)) (A.lit (t_val (i + 1))))
        (avg A (i + 1) smp) = rel_error A (i + 1) smp := rfl
    simp only [h10, if_false, false_or, e1, e2, e3]
    by_cases hh : A.lt (rel_error A (i + 1) smp) error = true
    · simp only [hh, if_true, not_true_eq_false, if_false]
      simp only [try_state, h10, if_false]
      rfl
    · simp only [hh, if_false, not_false_eq_true, if_true]
      simp only [try_state, h10, if_false]
      rfl

/-! ## Iteration-count discovery -/

theorem doubled_even_lt (j : Nat) : doubled j % 2 = 0 ∧ doubled j < 2 ^ 32 := by
  induction j with
  | zero => exact ⟨by decide, by decide⟩
  | succ j ih => simp only [doubled]; omega

theorem doubled_lt_UINT_MAX (j : Nat) : doubled j < UINT_MAX := by
  have := doubled_even_lt j
  simp only [UINT_MAX]; omega

theorem doubled_eq (k : Nat) (hk : 10 * 2 ^ k < 2 ^ 32) : doubled k = 10 * 2 ^ k := by
  induction k with
  | zero => rfl
  | succ k ih =>
    have h2 : 10 * 2 ^ (k + 1) = 10 * 2 ^ k * 2 := by ring
    have h3 : 10 * 2 ^ k < 2 ^ 32 := by omega
    rw [doubled, ih h3, h2]
    exact Nat.mod_eq_of_lt (by omega)

theorem with_run_with_run {F : Type} (A : Arith F) (t : thrarg F) (a b x y : Nat) :
    with_run A (with_run A t a x) b y = with_run A t b y := rfl

/-- A runner that never exceeds the floor keeps the discovery loop running. -/
theorem discover_none {F : Type} (A : Arith F) (elapsed : Nat → Nat → Nat) (floor : F)
    (h : ∀ k it, A.lt floor (A.ofNat (elapsed k it)) = false) :
    ∀ (fuel iters : Nat) (t : thrarg F) (w : World F), iters % 2 = 0 → iters < 2 ^ 32 →
      discover A elapsed floor fuel iters t w = none := by
  intro fuel
  induction fuel with
  | zero => intros; rfl
  | succ fuel ih =>
    intro iters t w hev hlt32
    have hlt : iters < UINT_MAX := by simp only [UINT_MAX]; omega
    have hs : ¬ (A.lt floor (bench_once A elapsed t iters w).1.result.sum = true) := by
      have := h w.calls iters
      simp only [bench_once, with_run, this]
      exact Bool.false_ne_true
    simp only [discover, hlt, if_true, hs, Bool.false_eq_true, if_false]
    exact ih _ _ _ (by omega) (by omega)

/-- The count the discovery loop ends with fits an `unsigned`. -/
theorem discover_le_UINT_MAX {F : Type} (A : Arith F) (elapsed : Nat → Nat → Nat)
    (floor : F) :
    ∀ (fuel iters : Nat) (t : thrarg F) (w : World F) (d : Nat × thrarg F × World F),
      iters < 2 ^ 32 → discover A elapsed floor fuel iters t w = some d → d.1 ≤ UINT_MAX := by
  intro fuel
  induction fuel with
  | zero => intro iters t w d _ h; simp [discover] at h
  | succ fuel ih =>
    intro iters t w d hlt32 h
    simp only [discover] at h
    split_ifs at h with h1 h2
    · cases h; exact le_of_lt h1
    · exact ih _ _ _ d (by omega) h
    · cases h; simp only [UINT_MAX]; omega

/-- When the elapsed time depends on the count only, the discovery loop ends at
the first count of the doubling sequence whose elapsed time exceeds the floor. -/
theorem discover_doubled {F : Type} (A : Arith F) (e : Nat → Nat) (floor : F) :
    ∀ (d a fuel : Nat) (t : thrarg F) (w : World F),
      (∀ i, a ≤ i → i < a + d → A.lt floor (A.ofNat (e (doubled i))) = false) →
      A.lt floor (A.ofNat (e (doubled (a + d)))) = true → d < fuel →
      discover A (fun _ it => e it) floor fuel (doubled a) t w =
        some (doubled (a + d), with_run A t (doubled (a + d)) (e (doubled (a + d))),
              { w with calls := w.calls + d + 1 }) := by
  intro d
  induction d with
  | zero =>
    intro a fuel t w _ hgt hf
    obtain ⟨f, rfl⟩ : ∃ f, fuel = f + 1 := ⟨fuel - 1, by omega⟩
    have hs : A.lt floor (bench_once A (fun _ it => e it) t (doubled a) w).1.result.sum
        = true := hgt
    simp only [discover, doubled_lt_UINT_MAX, if_true, hs]
    rfl
  | succ d ih =>
    intro a fuel t w hle hgt hf
    obtain ⟨f, rfl⟩ : ∃ f, fuel = f + 1 := ⟨fuel - 1, by omega⟩
    have hs : ¬ (A.lt floor (bench_once A (fun _ it => e it) t (doubled a) w).1.result.sum
        = true) := by
      have := hle a (le_refl a) (by omega)
      simp only [bench_once, with_run, this]
      exact Bool.false_ne_true
    simp only [discover, doubled_lt_UINT_MAX, if_true, hs, Bool.false_eq_true, if_false]
    have := ih (a + 1) f (bench_once A (fun _ it => e it) t (doubled a) w).1
      (bench_once A (fun _ it => e it) t (doubled a) w).2
      (fun i h1 h2 => hle i (by omega) (by omega))
      (by rw [show a + 1 + d = a + (d + 1) by omega]; exact hgt) (by omega)
    rw [show a + 1 + d = a + (d + 1) by omega] at this
    rw [show doubled a * 2 % 2 ^ 32 = doubled (a + 1) from rfl, this]
    simp only [bench_once, with_run_with_run]
    rw [show w.calls + 1 + d + 1 = w.calls + (d + 1) + 1 by omega]

/-- The loop of `bench_try` leaves `params` as the first run set it. -/
theorem bench_try_loop_params {F : Type} (A : Arith F) (elapsed : Nat → Nat → Nat)
    (iters : Nat) (error : F) :
    ∀ (fuel i : Nat) (s : TryState F) (t : thrarg F) (w : World F),
      (bench_try_loop A elapsed iters error (fuel + 1) i s t w).2.1.params =
        { t.params with iters := iters } := by
  intro fuel
  induction fuel with
  | zero =>
    intro i s t w
    simp only [bench_try_loop]
    split_ifs <;> rfl
  | succ fuel ih =>
    intro i s t w
    rw [bench_try_loop]
    simp only []
    split_ifs
    · rw [ih]; rfl
    · rfl
    · rw [ih]; rfl

/-- No sample count up to the bound meets the threshold: the loop runs to the bound. -/
theorem bench_try_loop_miss {F : Type} (A : Arith F) (elapsed : Nat → Nat → Nat)
    (iters : Nat) (error : F) (w0 : World F) :
    ∀ (fuel i : Nat) (t : thrarg F) (w : World F), w.calls = w0.calls + i →
      (∀ n, i < n → n ≤ i + fuel → min_samples ≤ n →
        ¬ (A.lt (rel_error A n (sample_at A elapsed iters w0)) error = true)) →
      (bench_try_loop A elapsed iters error fuel i
          (try_state A (sample_at A elapsed iters w0) i false) t w).1 =
        try_state A (sample_at A elapsed iters w0) (i + fuel) false ∧
      (bench_try_loop A elapsed iters error fuel i
          (try_state A (sample_at A elapsed iters w0) i false) t w).2.2 =
        { w with calls := w.calls + fuel } := by
  intro fuel
  induction fuel with
  | zero => intro i t w _ _; exact ⟨rfl, rfl⟩
  | succ fuel ih =>
    intro i t w hw hno
    have hs : sample_at A elapsed iters w0 i =
        A.div (A.ofNat (elapsed w.calls iters)) (A.ofNat iters) := by
      simp only [sample_at, hw]
    rw [bench_try_loop_step A elapsed iters error _ fuel i t w hs]
    have hc : i + 1 < min_samples ∨
        ¬ (A.lt (rel_error A (i + 1) (sample_at A elapsed iters w0)) error = true) := by
      by_cases h10 : i + 1 < min_samples
      · exact Or.inl h10
      · exact Or.inr (hno (i + 1) (by omega) (by omega) (by omega))
    rw [if_pos hc]
    have := ih (i + 1) (with_run A t iters (elapsed w.calls iters))
      { w with calls := w.calls + 1 } (by simp only [hw]; omega)
      (fun n h1 h2 h3 => hno n (by omega) (by omega) h3)
    rw [show i + 1 + fuel = i + (fuel + 1) by omega] at this
    refine ⟨this.1, ?_⟩
    rw [this.2]
    simp only [World.mk.injEq, and_true]
    omega

/-- The least sample count that meets the threshold ends the loop with success. -/
theorem bench_try_loop_hit {F : Type} (A : Arith F) (elapsed : Nat → Nat → Nat)
    (iters : Nat) (error : F) (w0 : World F) :
    ∀ (d fuel i : Nat) (t : thrarg F) (w : World F), w.calls = w0.calls + i → d < fuel →
      (∀ n, i < n → n < i + d + 1 → min_samples ≤ n →
        ¬ (A.lt (rel_error A n (sample_at A elapsed iters w0)) error = true)) →
      min_samples ≤ i + d + 1 →
      A.lt (rel_error A (i + d + 1) (sample_at A elapsed iters w0)) error = true →
      (bench_try_loop A elapsed iters error fuel i
          (try_state A (sample_at A elapsed iters w0) i false) t w).1 =
        try_state A (sample_at A elapsed iters w0) (i + d + 1) true ∧
      (bench_try_loop A elapsed iters error fuel i
          (try_state A (sample_at A elapsed iters w0) i false) t w).2.2 =
        { w with calls := w.calls + d + 1 } := by
  intro d
  induction d with
  | zero =>
    intro fuel i t w hw hf _ h10 hhit
    obtain ⟨f, rfl⟩ : ∃ f, fuel = f + 1 := ⟨fuel - 1, by omega⟩
    have hs : sample_at A elapsed iters w0 i =
        A.div (A.ofNat (elapsed w.calls iters)) (A.ofNat iters) := by
      simp only [sample_at, hw]
    rw [bench_try_loop_step A elapsed iters error _ f i t w hs]
    have hc : ¬ (i + 1 < min_samples ∨
        ¬ (A.lt (rel_error A (i + 1) (sample_at A elapsed iters w0)) error = true)) := by
      intro h
      rcases h with h | h
      · omega
      · exact h hhit
    rw [if_neg hc]
    exact ⟨rfl, rfl⟩
  | succ d ih =>
    intro fuel i t w hw hf hno h10 hhit
    obtain ⟨f, rfl⟩ : ∃ f, fuel = f + 1 := ⟨fuel - 1, by omega⟩
    have hs : sample_at A elapsed iters w0 i =
        A.div (A.ofNat (elapsed w.calls iters)) (A.ofNat iters) := by
      simp only [sample_at, hw]
    rw [bench_try_loop_step A elapsed iters error _ f i t w hs]
    have hc : i + 1 < min_samples ∨
        ¬ (A.lt (rel_error A (i + 1) (sample_at A elapsed iters w0)) error = true) := by
      by_cases h10 : i + 1 < min_samples
      · exact Or.inl h10
      · exact Or.inr (hno (i + 1) (by omega) (by omega) (by omega))
    rw [if_pos hc]
    have := ih f (i + 1) (with_run A t iters (elapsed w.calls iters))
      { w with calls := w.calls + 1 } (by simp only [hw]; omega) (by omega)
      (fun n h1 h2 h3 => hno n (by omega) (by omega) h3)
      (by omega) (by rw [show i + 1 + d + 1 = i + (d + 1) + 1 by omega]; exact hhit)
    rw [show i + 1 + d + 1 = i + (d + 1) + 1 by omega] at this
    refine ⟨this.1, ?_⟩
    rw [this.2]
    simp only [World.mk.injEq, and_true]
    omega

theorem try_state_zero {F : Type} (A : Arith F) (smp : Nat → F) :
    try_state A smp 0 false = TryState.init A := by
  simp [try_state, TryState.init, avg_loop, min_samples]

/-- `bench_try` in terms of the state its loop ends in. -/
theorem bench_try_of_loop {F : Type} (A : Arith F) (elapsed : Nat → Nat → Nat)
    (t : thrarg F) (iters : Nat) (w : World F) (n : Nat) (b : Bool)
    (hms : min_samples ≤ max_samples_of t) (hn : min_samples ≤ n)
    (h1 : (bench_try_loop A elapsed iters (error_of A t) (max_samples_of t) 0
            (try_state A (sample_at A elapsed iters w) 0 false) t w).1 =
          try_state A (sample_at A elapsed iters w) n b)
    (h2 : (bench_try_loop A elapsed iters (error_of A t) (max_samples_of t) 0
            (try_state A (sample_at A elapsed iters w) 0 false) t w).2.2 =
          { w with calls := w.calls + n }) :
    bench_try A elapsed t iters w = try_outcome A elapsed t iters w n b := by
  have hlt : ¬ max_samples_of t < min_samples := by omega
  have hn' : ¬ n < min_samples := by omega
  obtain ⟨m, hm⟩ : ∃ m, max_samples_of t = m + 1 :=
    ⟨max_samples_of t - 1, by simp only [min_samples] at hms; omega⟩
  have hp := bench_try_loop_params A elapsed iters (error_of A t) m 0
    (try_state A (sample_at A elapsed iters w) 0 false) t w
  rw [← hm] at hp
  have hmap : (List.range n).map
      (fun i => Line.sample (if i < n then sample_at A elapsed iters w i else A.lit 0)) =
      (List.range n).map (fun i => Line.sample (sample_at A elapsed iters w i)) := by
    apply List.map_congr_left
    intro i hi
    rw [List.mem_range] at hi
    simp [hi]
  rw [bench_try, if_neg hlt, ← try_state_zero A (sample_at A elapsed iters w)]
  simp only [h1, h2, hp]
  simp only [try_outcome, try_result, try_output, try_state, hn', if_false, hmap,
    List.append_assoc]

/-- A sample bound below `min_samples`: `bench_try` returns at once (bench.c:275). -/
theorem bench_try_small {F : Type} (A : Arith F) (elapsed : Nat → Nat → Nat) (t : thrarg F)
    (iters : Nat) (w : World F) (h : max_samples_of t < min_samples) :
    bench_try A elapsed t iters w = (false, t, w) := by
  rw [bench_try, if_pos h]

/-- The threshold is never met: `bench_try` takes all `max_samples` samples. -/
theorem bench_try_miss {F : Type} (A : Arith F) (elapsed : Nat → Nat → Nat) (t : thrarg F)
    (iters : Nat) (w : World F) (hms : min_samples ≤ max_samples_of t)
    (hno : ∀ n, min_samples ≤ n → n ≤ max_samples_of t →
      ¬ (A.lt (rel_error A n (sample_at A elapsed iters w)) (error_of A t) = true)) :
    bench_try A elapsed t iters w =
      try_outcome A elapsed t iters w (max_samples_of t) false := by
  have h := bench_try_loop_miss A elapsed iters (error_of A t) w (max_samples_of t) 0 t w
    (by omega) (fun n _ h2 h3 => hno n h3 (by omega))
  rw [Nat.zero_add] at h
  exact bench_try_of_loop A elapsed t iters w (max_samples_of t) false hms hms h.1 h.2

/-- The threshold is first met at `n` samples: `bench_try` stops there. -/
theorem bench_try_hit {F : Type} (A : Arith F) (elapsed : Nat → Nat → Nat) (t : thrarg F)
    (iters : Nat) (w : World F) (n : Nat) (hn : min_samples ≤ n)
    (hle : n ≤ max_samples_of t)
    (hhit : A.lt (rel_error A n (sample_at A elapsed iters w)) (error_of A t) = true)
    (hno : ∀ m, min_samples ≤ m → m < n →
      ¬ (A.lt (rel_error A m (sample_at A elapsed iters w)) (error_of A t) = true)) :
    bench_try A elapsed t iters w = try_outcome A elapsed t iters w n true := by
  obtain ⟨d, hd⟩ : ∃ d, n = 0 + d + 1 := ⟨n - 1, by simp only [min_samples] at hn; omega⟩
  have h := bench_try_loop_hit A elapsed iters (error_of A t) w d (max_samples_of t) 0 t w
    (by omega) (by omega) (fun m _ h2 h3 => hno m h3 (by omega))
    (by rw [← hd]; exact hn) (by rw [← hd]; exact hhit)
  rw [← hd] at h
  have h2 : (bench_try_loop A elapsed iters (error_of A t) (max_samples_of t) 0
            (try_state A (sample_at A elapsed iters w) 0 false) t w).2.2 =
          { w with calls := w.calls + n } := by
    rw [h.2, hd]; simp only [World.mk.injEq, and_true]; omega
  exact bench_try_of_loop A elapsed t iters w n true (le_trans hn hle) hn h.1 h2

/-- With a usable sample bound `bench_try` ends after some `n ≥ 10` samples. -/
theorem bench_try_cases {F : Type} (A : Arith F) (elapsed : Nat → Nat → Nat) (t : thrarg F)
    (iters : Nat) (w : World F) (hms : min_samples ≤ max_samples_of t) :
    ∃ n b, min_samples ≤ n ∧ n ≤ max_samples_of t ∧
      bench_try A elapsed t iters w = try_outcome A elapsed t iters w n b := by
  classical
  by_cases hex : ∃ n, min_samples ≤ n ∧ n ≤ max_samples_of t ∧
      A.lt (rel_error A n (sample_at A elapsed iters w)) (error_of A t) = true
  · have hspec := Nat.find_spec hex
    have hmin := fun m (hm : m < Nat.find hex) => Nat.find_min hex hm
    exact ⟨Nat.find hex, true, hspec.1, hspec.2.1,
      bench_try_hit A elapsed t iters w _ hspec.1 hspec.2.1 hspec.2.2
        (fun m h1 h2 h3 => hmin m h2 ⟨h1, le_trans (le_of_lt h2) hspec.2.1, h3⟩)⟩
  · exact ⟨max_samples_of t, false, hms, le_refl _,
      bench_try_miss A elapsed t iters w hms (fun n h1 h2 h3 => hex ⟨n, h1, h2, h3⟩)⟩

theorem max_samples_of_eq {F : Type} (t : thrarg F) :
    max_samples_of t = if t.params.max_samples = 0 then 400 else t.params.max_samples := by
  unfold max_samples_of
  by_cases h : t.params.max_samples = 0 <;> simp [h]

theorem error_of_eq {F : Type} (A : Arith F) (t : thrarg F) :
    error_of A t = if A.nonzero t.params.max_error = true
      then A.div t.params.max_error (A.lit 100) else A.lit 0.05 := rfl

/-- C3. In every double arithmetic, with the sample bound `max_samples_of`
(400 when `max_samples` is 0) and the threshold `error_of` (0.05 when `max_error`
is 0, otherwise `max_error / 100`): `bench_try` returns success exactly when some
sample count `n` with `10 ≤ n ≤ max_samples` has relative error
`stdev * t_val(n) / mean` of the first `n` samples strictly below the threshold;
at the least such `n` it has made exactly `n` runs and reports `samples = n`,
`avg` = the mean of those samples and `err` = their relative error. -/
theorem bench_try_success_iff {F : Type} (A : Arith F) (elapsed : Nat → Nat → Nat)
    (t : thrarg F) (iters : Nat) (w : World F) :
    (max_samples_of t = if t.params.max_samples = 0 then 400 else t.params.max_samples) ∧
    (error_of A t = if A.nonzero t.params.max_error = true
      then A.div t.params.max_error (A.lit 100) else A.lit 0.05) ∧
    ((bench_try A elapsed t iters w).1 = true ↔
      ∃ n, 10 ≤ n ∧ n ≤ max_samples_of t ∧
        A.lt (rel_error A n (sample_at A elapsed iters w)) (error_of A t) = true) ∧
    (∀ n, 10 ≤ n → n ≤ max_samples_of t →
      A.lt (rel_error A n (sample_at A elapsed iters w)) (error_of A t) = true →
      (∀ m, 10 ≤ m → m < n →
        A.lt (rel_error A m (sample_at A elapsed iters w)) (error_of A t) = false) →
      (bench_try A elapsed t iters w).1 = true ∧
      (bench_try A elapsed t iters w).2.2.calls = w.calls + n ∧
      (bench_try A elapsed t iters w).2.1.result.samples = n ∧
      (bench_try A elapsed t iters w).2.1.result.avg = avg A n (sample_at A elapsed iters w) ∧
      (bench_try A elapsed t iters w).2.1.result.err =
        A.div (A.mul (stdev A n (sample_at A elapsed iters w)
                        (avg A n (sample_at A elapsed iters w))) (A.lit (t_val n)))
              (avg A n (sample_at A elapsed iters w))) := by
  have key : ∀ n, 10 ≤ n → n ≤ max_samples_of t →
      A.lt (rel_error A n (sample_at A elapsed iters w)) (error_of A t) = true →
      (∀ m, 10 ≤ m → m < n →
        ¬ (A.lt (rel_error A m (sample_at A elapsed iters w)) (error_of A t) = true)) →
      bench_try A elapsed t iters w = try_outcome A elapsed t iters w n true :=
    fun n h1 h2 h3 h4 => bench_try_hit A elapsed t iters w n h1 h2 h3 h4
  refine ⟨max_samples_of_eq t, error_of_eq A t, ⟨?_, ?_⟩, ?_⟩
  · intro hsucc
    by_contra hex
    have hno : ∀ n, min_samples ≤ n → n ≤ max_samples_of t →
        ¬ (A.lt (rel_error A n (sample_at A elapsed iters w)) (error_of A t) = true) :=
      fun n h1 h2 h3 => hex ⟨n, h1, h2, h3⟩
    by_cases hms : min_samples ≤ max_samples_of t
    · rw [bench_try_miss A elapsed t iters w hms hno] at hsucc
      simp [try_outcome] at hsucc
    · rw [bench_try_small A elapsed t iters w (by omega)] at hsucc
      simp at hsucc
  · intro hex
    classical
    have hspec := Nat.find_spec hex
    have hmin := fun m (hm : m < Nat.find hex) => Nat.find_min hex hm
    rw [key (Nat.find hex) hspec.1 hspec.2.1 hspec.2.2
      (fun m h1 h2 h3 => hmin m h2 ⟨h1, le_trans (le_of_lt h2) hspec.2.1, h3⟩)]
    rfl
  · intro n h1 h2 h3 h4
    rw [key n h1 h2 h3 (fun m hm1 hm2 => by rw [h4 m hm1 hm2]; exact Bool.false_ne_true)]
    exact ⟨rfl, rfl, rfl, rfl, rfl⟩

/-- The statement above in exact arithmetic for the runner `el_settle` at 100
iterations with the default bound and threshold: the samples are 105.25, 94.75,
100, 100, ... and the relative error first falls below 5% at 12 samples (about
5.5%, 5.2%, 4.9% at 10, 11, 12), with mean 100 and a deviation that is not zero. -/
theorem bench_try_success_iff_witness :
    (bench_try exactQ el_settle ctx0 100 world0).1 = true ∧
    (bench_try exactQ el_settle ctx0 100 world0).2.2.calls = 0 + 12 ∧
    (bench_try exactQ el_settle ctx0 100 world0).2.1.result.samples = 12 ∧
    (bench_try exactQ el_settle ctx0 100 world0).2.1.result.avg = 100 ∧
    (bench_try exactQ el_settle ctx0 100 world0).2.1.result.sdev ≠ 0 :=
  have h := (bench_try_success_iff exactQ el_settle ctx0 100 world0).2.2.2 12
    (by decide) (by decide) (by decide!)
    (fun m h1 h2 => by
      have h3 : m = 10 ∨ m = 11 := by omega
      rcases h3 with h3 | h3 <;> subst h3 <;> decide!)
  ⟨h.1, h.2.1, h.2.2.1, by decide!, by decide!⟩

/-- C8 (amended). In every double arithmetic, when the sample bound (400 when
`max_samples` is 0) is at least 10 and the threshold is met at no sample count
from 10 up to it, `bench_try` returns failure after exactly that many runs and
writes into the result `samples` = the bound, `avg` = the mean of all samples
taken, and `sdev`, `u`, `err` = their standard deviation, confidence half-width
and relative error. -/
theorem bench_try_exhausted {F : Type} (A : Arith F) (elapsed : Nat → Nat → Nat)
    (t : thrarg F) (iters : Nat) (w : World F) (hms : 10 ≤ max_samples_of t)
    (hno : ∀ n, 10 ≤ n → n ≤ max_samples_of t →
      A.lt (rel_error A n (sample_at A elapsed iters w)) (error_of A t) = false) :
    (max_samples_of t = if t.params.max_samples = 0 then 400 else t.params.max_samples) ∧
    (error_of A t = if A.nonzero t.params.max_error = true
      then A.div t.params.max_error (A.lit 100) else A.lit 0.05) ∧
    (bench_try A elapsed t iters w).1 = false ∧
    (bench_try A elapsed t iters w).2.2.calls = w.calls + max_samples_of t ∧
    (bench_try A elapsed t iters w).2.1.result.samples = max_samples_of t ∧
    (bench_try A elapsed t iters w).2.1.result.avg =
      avg A (max_samples_of t) (sample_at A elapsed iters w) ∧
    (bench_try A elapsed t iters w).2.1.result.sdev =
      stdev A (max_samples_of t) (sample_at A elapsed iters w)
        (avg A (max_samples_of t) (sample_at A elapsed iters w)) ∧
    (bench_try A elapsed t iters w).2.1.result.u =
      A.mul (stdev A (max_samples_of t) (sample_at A elapsed iters w)
              (avg A (max_samples_of t) (sample_at A elapsed iters w)))
            (A.lit (t_val (max_samples_of t))) ∧
    (bench_try A elapsed t iters w).2.1.result.err =
      A.div (A.mul (stdev A (max_samples_of t) (sample_at A elapsed iters w)
                     (avg A (max_samples_of t) (sample_at A elapsed iters w)))
                   (A.lit (t_val (max_samples_of t))))
            (avg A (max_samples_of t) (sample_at A elapsed iters w)) := by
  rw [bench_try_miss A elapsed t iters w hms
    (fun n h1 h2 => by rw [hno n h1 h2]; exact Bool.false_ne_true)]
  exact ⟨max_samples_of_eq t, error_of_eq A t, rfl, rfl, rfl, rfl, rfl, rfl, rfl⟩

/-- The statement above in exact arithmetic for the runner `el_noisy` from its
run 1 on with a sample bound of 10: the relative error after 10 samples is
1.3368, the deviation 120000. -/
theorem bench_try_exhausted_witness :
    (bench_try exactQ el_noisy ctx10 10 { calls := 1, stderr := [] }).1 = false ∧
    (bench_try exactQ el_noisy ctx10 10 { calls := 1, stderr := [] }).2.2.calls
      = 1 + max_samples_of ctx10 ∧
    (bench_try exactQ el_noisy ctx10 10 { calls := 1, stderr := [] }).2.1.result.samples
      = max_samples_of ctx10 ∧
    (bench_try exactQ el_noisy ctx10 10 { calls := 1, stderr := [] }).2.1.result.sdev
      = 120000 :=
  have h := bench_try_exhausted exactQ el_noisy ctx10 10 { calls := 1, stderr := [] }
    (by decide)
    (fun n h1 h2 => by
      have h3 : max_samples_of ctx10 = 10 := by decide
      have h4 : n = 10 := by omega
      subst h4
      decide!)
  ⟨h.2.2.1, h.2.2.2.1, h.2.2.2.2.1, by decide!⟩

/-- C8 (counterexample). With a sample bound of 5 the threshold is met at no
sample count between 10 and the bound, yet `bench_try` returns at once without
a run and leaves the result untouched, in every double arithmetic: `samples`
stays 0, not 5. -/
theorem bench_try_exhausted_counterexample :
    (∀ (F : Type) (A : Arith F) (elapsed : Nat → Nat → Nat) (t : thrarg F) (iters : Nat)
      (w : World F), max_samples_of t < 10 → bench_try A elapsed t iters w = (false, t, w)) ∧
    max_samples_of ctx5 = 5 ∧
    (∀ n, 10 ≤ n → n ≤ max_samples_of ctx5 →
      exactQ.lt (rel_error exactQ n (sample_at exactQ el_noisy 10 world0))
        (error_of exactQ ctx5) = false) ∧
    bench_try exactQ el_noisy ctx5 10 world0 = (false, ctx5, world0) ∧
    (bench_try exactQ el_noisy ctx5 10 world0).2.1.result.samples ≠ max_samples_of ctx5 := by
  refine ⟨fun F A elapsed t iters w h => bench_try_small A elapsed t iters w h,
    by decide, ?_, by decide!, by decide!⟩
  intro n h1 h2
  have : max_samples_of ctx5 = 5 := by decide
  omega

/-! ## A runner without variance -/

theorem stdev_loop_const {F : Type} (A : Arith F) (c : F) (h : ConstExact A c) :
    ∀ n : Nat, stdev_loop A (fun _ => c) c n = A.lit 0 := by
  intro n
  induction n with
  | zero => rfl
  | succ n ih =>
    rw [stdev_loop, ih]
    simp only [sqr, h.sub_self, h.sqr_zero, h.add_zero]

theorem try_result_const {F : Type} (A : Arith F) (c : F) (h : ConstExact A c)
    (iters : Nat) :
    try_result A (fun _ => c) iters 10 =
      { avg := c, sum := avg_loop A (fun _ => c) 10, samples := 10, iters := iters,
        sdev := A.lit 0, u := A.lit 0, err := A.lit 0 } := by
  have havg : avg A 10 (fun _ => c) = c := h.mean
  have hsd : stdev A 10 (fun _ => c) c = A.lit 0 := by
    have h9 : (if (10 : Nat) ≤ 1 then 2 else 10) - 1 = 9 := by decide
    simp only [stdev, stdev_loop_const A c h 10, h9, h.zero_div_nine, h.sqrt_zero]
  simp only [try_result, rel_error, havg, hsd, h.zero_mul_t, h.zero_div]

/-- With a constant per-run average `c` under `ConstExact` and a positive
threshold, `bench_try` succeeds after exactly 10 samples with deviation 0 and
relative error 0. -/
theorem bench_try_const {F : Type} (A : Arith F) (e : Nat → Nat) (t : thrarg F)
    (iters : Nat) (w : World F)
    (hc : ConstExact A (A.div (A.ofNat (e iters)) (A.ofNat iters)))
    (hms : 10 ≤ max_samples_of t) (herr : A.lt (A.lit 0) (error_of A t) = true) :
    ∃ out, bench_try A (fun _ it => e it) t iters w =
      (true, const_ctx A t iters (A.div (A.ofNat (e iters)) (A.ofNat iters)),
       { calls := w.calls + 10, stderr := w.stderr ++ out }) := by
  have hsmp : sample_at A (fun _ it => e it) iters w =
      fun _ => A.div (A.ofNat (e iters)) (A.ofNat iters) := rfl
  have hr := try_result_const A _ hc iters
  have hz : rel_error A 10 (sample_at A (fun _ it => e it) iters w) = A.lit 0 := by
    rw [hsmp]
    exact congrArg Result.err hr
  have h := bench_try_hit A (fun _ it => e it) t iters w 10 (le_refl _) hms
    (by rw [hz]; exact herr) (fun m h1 h2 => by simp only [min_samples] at h1; omega)
  refine ⟨try_output A (sample_at A (fun _ it => e it) iters w) iters 10
    t.params.print_samples, ?_⟩
  rw [h, try_outcome, hsmp, hr]
  rfl

/-- With a constant per-run average, the statement `success = min(bench_try(..),
success)` entered with `success = true` calls `bench_try` once. -/
theorem min_try_const {F : Type} (A : Arith F) (e : Nat → Nat) (t : thrarg F)
    (iters : Nat) (w : World F)
    (hc : ConstExact A (A.div (A.ofNat (e iters)) (A.ofNat iters)))
    (hms : 10 ≤ max_samples_of t) (herr : A.lt (A.lit 0) (error_of A t) = true) :
    ∃ out, min_try A (fun _ it => e it) iters true t w =
      (true, const_ctx A t iters (A.div (A.ofNat (e iters)) (A.ofNat iters)),
       { calls := w.calls + 10, stderr := w.stderr ++ out }) := by
  obtain ⟨out, h⟩ := bench_try_const A e t iters w hc hms herr
  refine ⟨out, ?_⟩
  rw [min_try]
  simp only [h, lt_self_iff_false, if_false]

theorem round_loop_succ {F : Type} (A : Arith F) (elapsed : Nat → Nat → Nat) (iters j : Nat)
    (success : Bool) (error : F) (t : thrarg F) (w : World F) (r : Bool × thrarg F × World F)
    (h : min_try A elapsed iters success t w = r) :
    round_loop A elapsed iters (j + 1) success error t w =
      round_loop A elapsed iters j r.1
        (if A.lt r.2.1.result.err error = true then error else r.2.1.result.err) r.2.1 r.2.2 := by
  rw [round_loop, h]

/-- With a constant per-run average, a round succeeds with three attempts of 10
samples each and worst error 0. -/
theorem round_const {F : Type} (A : Arith F) (e : Nat → Nat) (t : thrarg F)
    (iters : Nat) (w : World F)
    (hc : ConstExact A (A.div (A.ofNat (e iters)) (A.ofNat iters)))
    (hms : 10 ≤ max_samples_of t) (herr : A.lt (A.lit 0) (error_of A t) = true) :
    ∃ out, round A (fun _ it => e it) iters t w =
      (true, A.lit 0, const_ctx A t iters (A.div (A.ofNat (e iters)) (A.ofNat iters)),
       { calls := w.calls + 30, stderr := w.stderr ++ out }) := by
  obtain ⟨o1, h1⟩ := min_try_const A e t iters w hc hms herr
  obtain ⟨o2, h2⟩ := min_try_const A e
    (const_ctx A t iters (A.div (A.ofNat (e iters)) (A.ofNat iters))) iters
    { calls := w.calls + 10, stderr := w.stderr ++ o1 } hc hms herr
  obtain ⟨o3, h3⟩ := min_try_const A e
    (const_ctx A t iters (A.div (A.ofNat (e iters)) (A.ofNat iters))) iters
    { calls := w.calls + 10 + 10, stderr := w.stderr ++ o1 ++ o2 } hc hms herr
  have hcc : const_ctx A (const_ctx A t iters (A.div (A.ofNat (e iters)) (A.ofNat iters)))
      iters (A.div (A.ofNat (e iters)) (A.ofNat iters)) =
      const_ctx A t iters (A.div (A.ofNat (e iters)) (A.ofNat iters)) := rfl
  rw [hcc] at h2 h3
  have herr0 : (if A.lt (const_ctx A t iters
        (A.div (A.ofNat (e iters)) (A.ofNat iters))).result.err (A.lit 0) = true
      then A.lit 0
      else (const_ctx A t iters (A.div (A.ofNat (e iters)) (A.ofNat iters))).result.err)
      = A.lit 0 := by
    simp [const_ctx]
  refine ⟨o1 ++ o2 ++ o3, ?_⟩
  rw [round, round_loop_succ A _ iters 2 true (A.lit 0) t w _ h1]
  simp only [herr0]
  rw [round_loop_succ A _ iters 1 true (A.lit 0) _ _ _ h2]
  simp only [herr0]
  rw [round_loop_succ A _ iters 0 true (A.lit 0) _ _ _ h3]
  simp only [herr0, round_loop, List.append_assoc, Nat.add_assoc]

theorem min_time_ns_of_eq {F : Type} (A : Arith F) (t : thrarg F) :
    min_time_ns_of A t = if t.params.min_time = 0 then A.ofNat 1000000
      else A.ofNat t.params.min_time := by
  unfold min_time_ns_of
  by_cases h : t.params.min_time = 0 <;> simp [h]

/-- C7 (amended). In every double arithmetic: with a runner whose elapsed time
depends on the iteration count only, a first count `doubled j` of the doubling
sequence whose elapsed time exceeds the floor, a per-run average `c` there for
which the arithmetic is exact on ten equal samples (`ConstExact`: their mean is `c`
again and `c - c`, `0 * 0`, `0 + 0`, `0 / 9`, `sqrt 0`, `0 * t_val(10)`, `0 / c` are
0), a positive threshold and a sample bound (400 when `max_samples` is 0) of at
least 10, `benchmark_auto` returns 1 after the `j + 1` discovery runs and one round
of three attempts of exactly 10 runs each; the context reports the discovered
count (never doubled), 10 samples, mean `c`, deviation 0, half-width 0 and
relative error 0. -/
theorem benchmark_auto_zero_variance {F : Type} (A : Arith F) (e : Nat → Nat)
    (t : thrarg F) (w : World F) (j fuel : Nat)
    (hexact : ConstExact A (A.div (A.ofNat (e (doubled j))) (A.ofNat (doubled j))))
    (hms : 10 ≤ max_samples_of t) (herr : A.lt (A.lit 0) (error_of A t) = true)
    (hfloor : A.lt (min_time_ns_of A t) (A.ofNat (e (doubled j))) = true)
    (hfirst : ∀ i, i < j → A.lt (min_time_ns_of A t) (A.ofNat (e (doubled i))) = false)
    (hfuel : j < fuel) :
    (max_samples_of t = if t.params.max_samples = 0 then 400 else t.params.max_samples) ∧
    (error_of A t = if A.nonzero t.params.max_error = true
      then A.div t.params.max_error (A.lit 100) else A.lit 0.05) ∧
    (min_time_ns_of A t = if t.params.min_time = 0 then A.ofNat 1000000
      else A.ofNat t.params.min_time) ∧
    ∃ r, benchmark_auto A (fun _ it => e it) fuel t w = some r ∧
      r.1 = 1 ∧
      r.2.2.calls = w.calls + (j + 1) + 3 * 10 ∧
      r.2.1.params = { t.params with iters := doubled j } ∧
      r.2.1.result.iters = doubled j ∧
      r.2.1.result.samples = 10 ∧
      r.2.1.result.avg = A.div (A.ofNat (e (doubled j))) (A.ofNat (doubled j)) ∧
      r.2.1.result.sdev = A.lit 0 ∧ r.2.1.result.u = A.lit 0 ∧
      r.2.1.result.err = A.lit 0 := by
  have hd := discover_doubled A e (min_time_ns_of A t) j 0 fuel t w
    (fun i _ h2 => hfirst i (by omega)) (by rw [Nat.zero_add]; exact hfloor) hfuel
  rw [Nat.zero_add] at hd
  obtain ⟨out, hr⟩ := round_const A e (with_run A t (doubled j) (e (doubled j)))
    (doubled j) { w with calls := w.calls + j + 1 } hexact hms herr
  have hle : doubled j ≤ UINT_MAX := le_of_lt (doubled_lt_UINT_MAX j)
  have hng : ¬ doubled j > UINT_MAX := by omega
  have hd' : discover A (fun _ it => e it) (min_time_ns_of A t) fuel 10 t w =
      some (doubled j, with_run A t (doubled j) (e (doubled j)),
        { w with calls := w.calls + j + 1 }) := hd
  refine ⟨max_samples_of_eq t, error_of_eq A t, min_time_ns_of_eq A t,
    (1, const_ctx A (with_run A t (doubled j) (e (doubled j))) (doubled j)
      (A.div (A.ofNat (e (doubled j))) (A.ofNat (doubled j))),
    { calls := w.calls + j + 1 + 30, stderr := w.stderr ++ out }), ?_, rfl, ?_, rfl, rfl, rfl,
    rfl, rfl, rfl, rfl⟩
  · rw [benchmark_auto, hd']
    simp only [hng, if_false]
    rw [show (64 : Nat) = 63 + 1 from rfl, backoff]
    simp only [hle, if_true, hr]
  · simp only []
    omega

/-- The statement above in exact arithmetic for 30000 ns per iteration and the
default context: discovery ends at 40 iterations after three runs, and ten
samples of 30000 have mean 30000. -/
theorem benchmark_auto_zero_variance_witness :
    ∃ r, benchmark_auto exactQ (fun _ it => el_slow it) 3 ctx0 world0 = some r ∧
      r.1 = 1 ∧
      r.2.2.calls = world0.calls + (2 + 1) + 3 * 10 ∧
      r.2.1.params = { ctx0.params with iters := doubled 2 } ∧
      r.2.1.result.iters = doubled 2 ∧
      r.2.1.result.samples = 10 ∧
      r.2.1.result.avg = exactQ.div (exactQ.ofNat (el_slow (doubled 2)))
        (exactQ.ofNat (doubled 2)) ∧
      r.2.1.result.sdev = exactQ.lit 0 ∧ r.2.1.result.u = exactQ.lit 0 ∧
      r.2.1.result.err = exactQ.lit 0 :=
  (benchmark_auto_zero_variance exactQ el_slow ctx0 world0 2 3
    ⟨by decide!, by decide!, by decide!, by decide!, by decide!, by decide!, by decide!,
      by decide!⟩
    (by decide) (by decide!) (by decide!)
    (fun i hi => by
      have h : i = 0 ∨ i = 1 := by omega
      rcases h with h | h <;> subst h <;> decide!)
    (by decide)).2.2.2

/-- C7 (counterexample). The runner `el_const` has no variance (200000 ns per
iteration in every run) and exceeds the floor at 10 iterations, the threshold is
the positive default, but the sample bound is 5: every `bench_try` returns
failure at once, in every arithmetic, and `benchmark_auto` returns 0 after 64
rounds without a single sampling run. -/
theorem benchmark_auto_zero_variance_counterexample :
    (∀ (F : Type) (A : Arith F) (elapsed : Nat → Nat → Nat) (t : thrarg F) (iters : Nat)
      (w : World F), max_samples_of t < 10 → bench_try A elapsed t iters w = (false, t, w)) ∧
    max_samples_of ctx5 = 5 ∧
    (∀ k it, el_const k it = 200000 * it) ∧
    exactQ.lt (exactQ.lit 0) (error_of exactQ ctx5) = true ∧
    exactQ.lt (min_time_ns_of exactQ ctx5) (exactQ.ofNat (el_const 0 10)) = true ∧
    (benchmark_auto exactQ el_const 1 ctx5 world0).map (fun r => (r.1, r.2.2)) =
      some (0, { calls := 1, stderr := [] }) := by
  refine ⟨fun F A elapsed t iters w h => bench_try_small A elapsed t iters w h, by decide,
    fun _ _ => rfl, by decide!, by decide!, by decide!⟩

/-! ## What `benchmark_auto` writes -/

theorem bench_try_loop_stderr {F : Type} (A : Arith F) (elapsed : Nat → Nat → Nat)
    (iters : Nat) (error : F) :
    ∀ (fuel i : Nat) (s : TryState F) (t : thrarg F) (w : World F),
      (bench_try_loop A elapsed iters error fuel i s t w).2.2.stderr = w.stderr := by
  intro fuel
  induction fuel with
  | zero => intros; rfl
  | succ fuel ih =>
    intro i s t w
    rw [bench_try_loop]
    simp only []
    split_ifs
    · rw [ih]; rfl
    · rfl
    · rw [ih]; rfl

/-- `bench_try` only appends to `stderr`. -/
theorem bench_try_stderr {F : Type} (A : Arith F) (elapsed : Nat → Nat → Nat) (t : thrarg F)
    (iters : Nat) (w : World F) :
    ∃ out, (bench_try A elapsed t iters w).2.2.stderr = w.stderr ++ out := by
  by_cases h : max_samples_of t < min_samples
  · rw [bench_try, if_pos h]
    exact ⟨[], by simp⟩
  · rw [bench_try, if_neg h]
    simp only [bench_try_loop_stderr, List.append_assoc]
    exact ⟨_, rfl⟩

/-- The statement `success = min(bench_try(..), success)` starts with a
`bench_try` in the state it is entered in and only appends after it. -/
theorem min_try_first {F : Type} (A : Arith F) (elapsed : Nat → Nat → Nat) (iters : Nat)
    (success : Bool) (t : thrarg F) (w : World F) :
    ∃ rest, (min_try A elapsed iters success t w).2.2.stderr =
      (bench_try A elapsed t iters w).2.2.stderr ++ rest := by
  unfold min_try
  simp only []
  split_ifs
  · exact bench_try_stderr A elapsed _ iters _
  · exact ⟨[], by simp⟩

theorem round_loop_stderr {F : Type} (A : Arith F) (elapsed : Nat → Nat → Nat) (iters : Nat) :
    ∀ (j : Nat) (success : Bool) (error : F) (t : thrarg F) (w : World F),
      ∃ rest, (round_loop A elapsed iters j success error t w).2.2.2.stderr =
        w.stderr ++ rest := by
  intro j
  induction j with
  | zero => intro _ _ _ w; exact ⟨[], by simp [round_loop]⟩
  | succ j ih =>
    intro success error t w
    obtain ⟨r1, h1⟩ := min_try_first A elapsed iters success t w
    obtain ⟨r0, h0⟩ := bench_try_stderr A elapsed t iters w
    rw [round_loop]
    obtain ⟨r2, h2⟩ := ih (min_try A elapsed iters success t w).1
      (if A.lt (min_try A elapsed iters success t w).2.1.result.err error = true then error
        else (min_try A elapsed iters success t w).2.1.result.err)
      (min_try A elapsed iters success t w).2.1 (min_try A elapsed iters success t w).2.2
    exact ⟨r0 ++ r1 ++ r2, by rw [h2, h1, h0]; simp only [List.append_assoc]⟩

/-- A round starts with a `bench_try` in the state it is entered in. -/
theorem round_first {F : Type} (A : Arith F) (elapsed : Nat → Nat → Nat) (iters : Nat)
    (t : thrarg F) (w : World F) :
    ∃ rest, (round A elapsed iters t w).2.2.2.stderr =
      (bench_try A elapsed t iters w).2.2.stderr ++ rest := by
  obtain ⟨r1, h1⟩ := min_try_first A elapsed iters true t w
  rw [round, round_loop]
  obtain ⟨r2, h2⟩ := round_loop_stderr A elapsed iters 2
    (min_try A elapsed iters true t w).1
    (if A.lt (min_try A elapsed iters true t w).2.1.result.err (A.lit 0) = true then A.lit 0
      else (min_try A elapsed iters true t w).2.1.result.err)
    (min_try A elapsed iters true t w).2.1 (min_try A elapsed iters true t w).2.2
  exact ⟨r1 ++ r2, by rw [h2, h1]; simp only [List.append_assoc]⟩

theorem backoff_stderr {F : Type} (A : Arith F) (elapsed : Nat → Nat → Nat) :
    ∀ (r iters : Nat) (last_error : F) (success : Bool) (t : thrarg F) (w : World F),
      ∃ rest, (backoff A elapsed r iters last_error success t w).2.2.stderr =
        w.stderr ++ rest := by
  intro r
  induction r with
  | zero => intro _ _ _ _ w; exact ⟨[], by simp [backoff]⟩
  | succ r ih =>
    intro iters last_error success t w
    obtain ⟨r1, h1⟩ := round_loop_stderr A elapsed iters 3 true (A.lit 0) t w
    have h1' : (round A elapsed iters t w).2.2.2.stderr = w.stderr ++ r1 := h1
    rw [backoff]
    simp only []
    split_ifs
    · exact ⟨r1, h1'⟩
    · exact ⟨r1, h1'⟩
    · obtain ⟨r2, h2⟩ := ih (iters * 2 % 2 ^ 32) (round A elapsed iters t w).2.1
        (round A elapsed iters t w).1 (round A elapsed iters t w).2.2.1
        (round A elapsed iters t w).2.2.2
      exact ⟨r1 ++ r2, by rw [h2, h1']; simp only [List.append_assoc]⟩
    · exact ⟨[], by simp⟩

/-- The backoff loop starts with a `bench_try` at the count and in the state it
is entered with. -/
theorem backoff_first {F : Type} (A : Arith F) (elapsed : Nat → Nat → Nat)
    (r iters : Nat) (last_error : F) (success : Bool) (t : thrarg F) (w : World F)
    (hi : iters ≤ UINT_MAX) :
    ∃ rest, (backoff A elapsed (r + 1) iters last_error success t w).2.2.stderr =
      (bench_try A elapsed t iters w).2.2.stderr ++ rest := by
  obtain ⟨r1, h1⟩ := round_first A elapsed iters t w
  rw [backoff]
  simp only [hi, if_true]
  split_ifs
  · exact ⟨r1, h1⟩
  · exact ⟨r1, h1⟩
  · obtain ⟨r2, h2⟩ := backoff_stderr A elapsed r (iters * 2 % 2 ^ 32)
      (round A elapsed iters t w).2.1 (round A elapsed iters t w).1
      (round A elapsed iters t w).2.2.1 (round A elapsed iters t w).2.2.2
    exact ⟨r1 ++ r2, by rw [h2, h1]; simp only [List.append_assoc]⟩

/-- C5 (amended). In every double arithmetic, for a runner whose elapsed time is
a function `e` of the iteration count and, converted to `double`, exceeds the
floor (`min_time`, or 1000000 ns when `min_time` is 0, as a `double`) strictly at
some count `10 * 2^k` below `2^32`: the discovery loop ends after `k + 1` runs
with `iters = 10 * 2^k` for the smallest `k` whose elapsed time is strictly
greater than the floor, and the first sampling round runs at that count: with a
usable sample bound the first lines `benchmark_auto` writes are those of a
`bench_try` at `10 * 2^k` iterations on the runs that follow the discovery. -/
theorem discover_finds_least {F : Type} (A : Arith F) (e : Nat → Nat) (t : thrarg F)
    (w : World F) (k fuel : Nat) (hk : 10 * 2 ^ k < 2 ^ 32)
    (hgt : A.lt (min_time_ns_of A t) (A.ofNat (e (10 * 2 ^ k))) = true)
    (hmin : ∀ j, j < k → A.lt (min_time_ns_of A t) (A.ofNat (e (10 * 2 ^ j))) = false)
    (hfuel : k < fuel) :
    (min_time_ns_of A t = if t.params.min_time = 0 then A.ofNat 1000000
      else A.ofNat t.params.min_time) ∧
    discover A (fun _ it => e it) (min_time_ns_of A t) fuel 10 t w =
      some (10 * 2 ^ k, with_run A t (10 * 2 ^ k) (e (10 * 2 ^ k)),
        { w with calls := w.calls + k + 1 }) ∧
    ∃ r, benchmark_auto A (fun _ it => e it) fuel t w = some r ∧
      (10 ≤ max_samples_of t →
        ∃ n rest, 10 ≤ n ∧ n ≤ max_samples_of t ∧
          r.2.2.stderr = w.stderr ++
            try_output A (sample_at A (fun _ it => e it) (10 * 2 ^ k)
                { w with calls := w.calls + k + 1 })
              (10 * 2 ^ k) n t.params.print_samples ++ rest) := by
  have hj : ∀ j, j ≤ k → doubled j = 10 * 2 ^ j := by
    intro j hjk
    apply doubled_eq
    have : 2 ^ j ≤ 2 ^ k := Nat.pow_le_pow_right (by decide) hjk
    omega
  have hd := discover_doubled A e (min_time_ns_of A t) k 0 fuel t w
    (fun i _ h2 => by rw [hj i (by omega)]; exact hmin i (by omega))
    (by rw [Nat.zero_add, hj k (le_refl k)]; exact hgt) hfuel
  rw [Nat.zero_add, hj k (le_refl k)] at hd
  have hd' : discover A (fun _ it => e it) (min_time_ns_of A t) fuel 10 t w =
      some (10 * 2 ^ k, with_run A t (10 * 2 ^ k) (e (10 * 2 ^ k)),
        { w with calls := w.calls + k + 1 }) := hd
  have hle : 10 * 2 ^ k ≤ UINT_MAX := by simp only [UINT_MAX]; omega
  have hng : ¬ 10 * 2 ^ k > UINT_MAX := by omega
  refine ⟨min_time_ns_of_eq A t, hd', ?_⟩
  rw [benchmark_auto, hd']
  simp only [hng, if_false]
  refine ⟨_, rfl, ?_⟩
  intro hms
  obtain ⟨rest, hrest⟩ := backoff_first A (fun _ it => e it) 63 (10 * 2 ^ k) (A.lit 100) false
    (with_run A t (10 * 2 ^ k) (e (10 * 2 ^ k))) { w with calls := w.calls + k + 1 } hle
  obtain ⟨n, b, hn1, hn2, hb⟩ := bench_try_cases A (fun _ it => e it)
    (with_run A t (10 * 2 ^ k) (e (10 * 2 ^ k))) (10 * 2 ^ k)
    { w with calls := w.calls + k + 1 } hms
  refine ⟨n, rest, hn1, hn2, ?_⟩
  simp only []
  rw [hrest, hb]
  rfl

/-- The statement above in exact arithmetic for 30000 ns per iteration: the
floor of 1 ms is first exceeded at `10 * 2^2 = 40` iterations, after three runs. -/
theorem discover_finds_least_witness :
    discover exactQ (fun _ it => el_slow it) (min_time_ns_of exactQ ctx0) 3 10 ctx0 world0 =
      some (10 * 2 ^ 2, with_run exactQ ctx0 (10 * 2 ^ 2) (el_slow (10 * 2 ^ 2)),
        { world0 with calls := world0.calls + 2 + 1 }) ∧
    ∃ r, benchmark_auto exactQ (fun _ it => el_slow it) 3 ctx0 world0 = some r ∧
      (10 ≤ max_samples_of ctx0 →
        ∃ n rest, 10 ≤ n ∧ n ≤ max_samples_of ctx0 ∧
          r.2.2.stderr = world0.stderr ++
            try_output exactQ (sample_at exactQ (fun _ it => el_slow it) (10 * 2 ^ 2)
                { world0 with calls := world0.calls + 2 + 1 })
              (10 * 2 ^ 2) n ctx0.params.print_samples ++ rest) :=
  (discover_finds_least exactQ el_slow ctx0 world0 2 3 (by decide) (by decide!)
    (fun j hj => by
      have h : j = 0 ∨ j = 1 := by omega
      rcases h with h | h <;> subst h <;> decide!)
    (by decide)).2

/-- C5 (counterexample). With 100000 ns per iteration the elapsed time at 10
iterations equals the default floor of 1000000 ns, so `k = 0` is the smallest `k`
whose elapsed time is `≥` the floor; the discovery loop tests `>` and ends at 20,
the count of the first round. -/
theorem discover_floor_counterexample :
    min_time_ns_of exactQ ctx0 = 1000000 ∧
    (el_floor 0 (10 * 2 ^ 0) : ℚ) ≥ min_time_ns_of exactQ ctx0 ∧
    (discover exactQ el_floor (min_time_ns_of exactQ ctx0) 2 10 ctx0 world0).map
        (fun d => d.1) = some (10 * 2 ^ 1) ∧
    (benchmark_auto exactQ el_floor 2 ctx0 world0).map
        (fun r => (r.1, r.2.1.result.iters, r.2.2.stderr.head?)) =
      some (1, 20, some (Line.diag 20 10 0 0 0 100000)) := by
  refine ⟨?_, ?_, ?_, ?_⟩ <;> decide!

/-! ## The claims about `benchmark_auto` -/

/-- The square roots taken in the worked runs with equal samples or with the
deviations 2, 4 and 120000 are exact. -/
theorem sqrt_q_values :
    sqrt_q 0 = 0 ∧ sqrt_q 4 = 2 ∧ sqrt_q 16 = 4 ∧ sqrt_q 14400000000 = 120000 := by
  refine ⟨?_, ?_, ?_, ?_⟩ <;> decide!

/-- C1. The statement `success = min(bench_try(..), success)` evaluates
`bench_try` a second time when the first evaluation failed while `success` was
still true, and keeps only the second outcome: a round is treated as successful
although one of its `bench_try` invocations returned failure. With the runner
`el_noisy` the first invocation of the round fails (relative error 1.3368), the
round makes four invocations (four diagnostic lines, 40 runs) and
`benchmark_auto` returns 1. -/
theorem round_success_despite_failed_try :
    (∀ (F : Type) (A : Arith F) (elapsed : Nat → Nat → Nat) (iters : Nat) (t : thrarg F)
      (w : World F),
      (bench_try A elapsed t iters w).1 = false →
      (bench_try A elapsed (bench_try A elapsed t iters w).2.1 iters
        (bench_try A elapsed t iters w).2.2).1 = true →
      (min_try A elapsed iters true t w).1 = true) ∧
    (bench_try exactQ el_noisy (with_run exactQ ctx10 10 2000000) 10
      { calls := 1, stderr := [] }).1 = false ∧
    (round exactQ el_noisy 10 (with_run exactQ ctx10 10 2000000)
      { calls := 1, stderr := [] }).1 = true ∧
    (benchmark_auto exactQ el_noisy 1 ctx10 world0).map (fun r => (r.1, r.2.2)) =
      some (1, { calls := 41,
                 stderr := [Line.diag 10 10 120000 267360 1.3368 200000,
                            Line.diag 10 10 0 0 0 200000,
                            Line.diag 10 10 0 0 0 200000,
                            Line.diag 10 10 0 0 0 200000] }) := by
  refine ⟨?_, ?_, ?_, ?_⟩
  · intro F A elapsed iters t w h1 h2
    rw [min_try]
    simp only [h1, h2, Bool.false_lt_true, if_true]
  · decide!
  · decide!
  · decide!

/-- C2. `benchmark_auto` never returns `-ENOSPC`: the test `iters > max_iters`
cannot hold for a 32-bit `unsigned`, and the count wraps to 0 after 31 doublings.
With a runner whose elapsed time never exceeds the floor the discovery loop never
ends, whatever the fuel; with the runner that always measures 0 ns
`benchmark_auto` returns nothing for every fuel. -/
theorem benchmark_auto_never_ENOSPC :
    (∀ (F : Type) (A : Arith F) (elapsed : Nat → Nat → Nat) (fuel : Nat) (t : thrarg F)
      (w : World F),
      (∀ k it, A.lt (min_time_ns_of A t) (A.ofNat (elapsed k it)) = false) →
      benchmark_auto A elapsed fuel t w = none) ∧
    (∀ fuel : Nat, benchmark_auto exactQ (fun _ _ => 0) fuel ctx0 world0 = none) ∧
    (∀ (F : Type) (A : Arith F) (elapsed : Nat → Nat → Nat) (fuel : Nat) (t : thrarg F)
      (w : World F) (r : Int × thrarg F × World F),
      benchmark_auto A elapsed fuel t w = some r → r.1 ≠ -ENOSPC) := by
  have gen : ∀ (F : Type) (A : Arith F) (elapsed : Nat → Nat → Nat) (fuel : Nat)
      (t : thrarg F) (w : World F),
      (∀ k it, A.lt (min_time_ns_of A t) (A.ofNat (elapsed k it)) = false) →
      benchmark_auto A elapsed fuel t w = none := by
    intro F A elapsed fuel t w h
    have hd := discover_none A elapsed (min_time_ns_of A t) h
      fuel 10 t w (by decide) (by decide)
    rw [benchmark_auto, hd]
  refine ⟨gen, ?_, ?_⟩
  · intro fuel
    apply gen
    intro k it
    decide!
  · intro F A elapsed fuel t w r h
    rw [benchmark_auto] at h
    cases hd : discover A elapsed (min_time_ns_of A t) fuel 10 t w with
    | none => rw [hd] at h; simp at h
    | some d =>
      rw [hd] at h
      have hle := discover_le_UINT_MAX A elapsed (min_time_ns_of A t) fuel 10 t w d
        (by decide) hd
      have hng : ¬ d.1 > UINT_MAX := by omega
      simp only [hng, if_false, Option.some.injEq] at h
      rw [← h]
      simp only [ENOSPC]
      split_ifs <;> decide

/-- The backoff branch: a failed round whose error exceeds `last_error` ends the
loop with failure and the context as it was when the round began. -/
theorem backoff_reverts {F : Type} (A : Arith F) (elapsed : Nat → Nat → Nat) (r iters : Nat)
    (last_error : F) (success : Bool) (t : thrarg F) (w : World F) (hi : iters ≤ UINT_MAX)
    (hfail : (round A elapsed iters t w).1 = false)
    (hworse : A.lt last_error (round A elapsed iters t w).2.1 = true) :
    backoff A elapsed (r + 1) iters last_error success t w =
      (false, t, (round A elapsed iters t w).2.2.2) := by
  rw [backoff]
  simp only [hi, if_true, hfail, hworse, Bool.false_eq_true, if_false]

/-- A failed round whose error did not rise is followed by a round at the
doubled count, reduced modulo `2^32`, entered with the context the failed round
left. -/
theorem backoff_doubles {F : Type} (A : Arith F) (elapsed : Nat → Nat → Nat) (r iters : Nat)
    (last_error : F) (success : Bool) (t : thrarg F) (w : World F) (hi : iters ≤ UINT_MAX)
    (hfail : (round A elapsed iters t w).1 = false)
    (hnot : A.lt last_error (round A elapsed iters t w).2.1 = false) :
    backoff A elapsed (r + 1) iters last_error success t w =
      backoff A elapsed r (iters * 2 % 2 ^ 32) (round A elapsed iters t w).2.1 false
        (round A elapsed iters t w).2.2.1 (round A elapsed iters t w).2.2.2 := by
  rw [backoff]
  simp only [hi, if_true, hfail, hnot, Bool.false_eq_true, if_false]

/-- C4. A failed round whose worst error exceeds the previous one ends
`benchmark_auto` with failure and with the context exactly as it was before that
round, which is the context the previous round left; but the count of a round is
the previous count doubled and reduced modulo `2^32`, so the restored count need
not be half of the failing round's. With the runner `el_wrap` and a floor of 20 s
the discovery loop ends at 2684354560 iterations, the round at that count fails
with error 0.4456, the next round runs at 2684354560 * 2 mod 2^32 = 1073741824
and fails with error 0.8912, and the restored context has `iters = 2684354560`. -/
theorem backoff_restores_after_wrap :
    (∀ (F : Type) (A : Arith F) (elapsed : Nat → Nat → Nat) (r iters : Nat) (last_error : F)
      (success : Bool) (t : thrarg F) (w : World F), iters ≤ UINT_MAX →
      (round A elapsed iters t w).1 = false →
      A.lt last_error (round A elapsed iters t w).2.1 = true →
      backoff A elapsed (r + 1) iters last_error success t w =
        (false, t, (round A elapsed iters t w).2.2.2)) ∧
    (∀ (F : Type) (A : Arith F) (elapsed : Nat → Nat → Nat) (r iters : Nat) (last_error : F)
      (success : Bool) (t : thrarg F) (w : World F), iters ≤ UINT_MAX →
      (round A elapsed iters t w).1 = false →
      A.lt last_error (round A elapsed iters t w).2.1 = false →
      (round A elapsed (iters * 2 % 2 ^ 32) (round A elapsed iters t w).2.2.1
        (round A elapsed iters t w).2.2.2).1 = false →
      A.lt (round A elapsed iters t w).2.1
        (round A elapsed (iters * 2 % 2 ^ 32) (round A elapsed iters t w).2.2.1
          (round A elapsed iters t w).2.2.2).2.1 = true →
      backoff A elapsed (r + 2) iters last_error success t w =
        (false, (round A elapsed iters t w).2.2.1,
          (round A elapsed (iters * 2 % 2 ^ 32) (round A elapsed iters t w).2.2.1
            (round A elapsed iters t w).2.2.2).2.2.2)) ∧
    (benchmark_auto exactQ el_wrap 29 ctx_wrap world0).map
        (fun r => (r.1, r.2.1.params.iters, r.2.1.result.iters, r.2.1.result.err, r.2.2)) =
      some (0, 2684354560, 2684354560, 0.4456,
        { calls := 109,
          stderr := [Line.diag 2684354560 10 2 4.456 0.4456 10,
                     Line.diag 2684354560 10 2 4.456 0.4456 10,
                     Line.diag 2684354560 10 2 4.456 0.4456 10,
                     Line.diag 2684354560 10 2 4.456 0.4456 10,
                     Line.diag 1073741824 10 4 8.912 0.8912 10,
                     Line.diag 1073741824 10 4 8.912 0.8912 10,
                     Line.diag 1073741824 10 4 8.912 0.8912 10,
                     Line.diag 1073741824 10 4 8.912 0.8912 10] }) ∧
    2684354560 * 2 % 2 ^ 32 = 1073741824 ∧ 1073741824 / 2 ≠ 2684354560 := by
  refine ⟨?_, ?_, ?_, ?_, ?_⟩
  · intro F A elapsed r iters last_error success t w hi hfail hworse
    exact backoff_reverts A elapsed r iters last_error success t w hi hfail hworse
  · intro F A elapsed r iters last_error success t w hi hfail hnot hfail2 hworse2
    rw [backoff_doubles A elapsed (r + 1) iters last_error success t w hi hfail hnot]
    exact backoff_reverts A elapsed r _ _ _ _ _ (by simp only [UINT_MAX]; omega)
      hfail2 hworse2
  · decide!
  · decide
  · decide

/-- C6. `t_val(n)` is entry `n` of `student_1_30`, the critical value for `n`
degrees of freedom, not for `n - 1`: for every `n` from 2 to 30 it is strictly
below the value for `n - 1` degrees of freedom, and `t_val(10) = 2.228` where the
9-degrees-of-freedom value is 2.262. -/
theorem t_val_uses_n_degrees :
    (∀ n, n ≤ 30 → t_val n = student_1_30.getD n 0) ∧
    (∀ n, 2 ≤ n → n ≤ 30 → t_val n < student_1_30.getD (n - 1) 0) ∧
    student_1_30.getD 1 0 = 12.71 ∧ student_1_30.getD 9 0 = 2.262 ∧
    t_val 10 = 2.228 ∧ t_val 10 ≠ 2.262 := by
  refine ⟨?_, ?_, ?_, ?_, ?_, ?_⟩
  · intro n hn
    simp only [t_val, hn, if_true]
  · decide!
  · decide!
  · decide!
  · decide!
  · decide!

/-! ## Barrier -/

theorem barrier_inv_start (nthreads : Nat) : barrier_inv nthreads (Shared.start nthreads) := by
  refine ⟨?_, ?_, ?_⟩
  · simp [Shared.start]
  · intro v _ h; simp [Shared.start] at h
  · intro v _ h; simp [Shared.start] at h

theorem card_init_update (nthreads : Nat) (pc : Nat → Pc) (tid : Nat) (x : Pc)
    (htid : tid < nthreads) (h : pc tid = Pc.init) (hx : x ≠ Pc.init) :
    ((Finset.range nthreads).filter (fun v => Function.update pc tid x v = Pc.init)).card + 1 =
      ((Finset.range nthreads).filter (fun v => pc v = Pc.init)).card := by
  have hmem : tid ∈ (Finset.range nthreads).filter (fun v => pc v = Pc.init) := by
    simp [htid, h]
  have hset : (Finset.range nthreads).filter (fun v => Function.update pc tid x v = Pc.init) =
      ((Finset.range nthreads).filter (fun v => pc v = Pc.init)).erase tid := by
    ext v
    by_cases hv : v = tid
    · subst hv; simp [hx]
    · simp [Function.update_noteq hv, hv]
  rw [hset, Finset.card_erase_of_mem hmem]
  have : 0 < ((Finset.range nthreads).filter (fun v => pc v = Pc.init)).card :=
    Finset.card_pos.mpr ⟨tid, hmem⟩
  omega

theorem card_init_update_same (nthreads : Nat) (pc : Nat → Pc) (tid : Nat) (x : Pc)
    (h : pc tid ≠ Pc.init) (hx : x ≠ Pc.init) :
    ((Finset.range nthreads).filter (fun v => Function.update pc tid x v = Pc.init)) =
      ((Finset.range nthreads).filter (fun v => pc v = Pc.init)) := by
  ext v
  by_cases hv : v = tid
  · subst hv; simp [hx, h]
  · simp [Function.update_noteq hv]

theorem barrier_inv_step (nthreads : Nat) (hN : nthreads < 2 ^ 32) (s : Shared) (tid : Nat)
    (h : barrier_inv nthreads s) : barrier_inv nthreads (barrier_step nthreads s tid) := by
  obtain ⟨hb, hz, hr⟩ := h
  unfold barrier_step
  by_cases htid : tid < nthreads
  · rw [if_pos htid]
    cases hpc : s.pc tid with
    | init =>
      have hc := card_init_update nthreads s.pc tid
        (Pc.spin ((s.barrier + 2 ^ 32 - 1) % 2 ^ 32)) htid hpc (by simp)
      have hle : ((Finset.range nthreads).filter (fun v => s.pc v = Pc.init)).card ≤ nthreads := by
        simpa using Finset.card_filter_le (Finset.range nthreads) (fun v => s.pc v = Pc.init)
      have hval : (s.barrier + 2 ^ 32 - 1) % 2 ^ 32 = s.barrier - 1 := by
        have : 0 < s.barrier := by omega
        omega
      refine ⟨?_, ?_, ?_⟩
      · simp only []
        omega
      · intro v hv hv0
        simp only [] at hv0 ⊢
        by_cases hvt : v = tid
        · subst hvt
          simp only [Function.update_same, Pc.spin.injEq] at hv0
          exact hv0
        · rw [Function.update_noteq hvt] at hv0
          have := hz v hv hv0
          omega
      · intro v hv hv0
        simp only [] at hv0 ⊢
        by_cases hvt : v = tid
        · subst hvt
          simp at hv0
        · rw [Function.update_noteq hvt] at hv0
          have := hr v hv hv0
          omega
    | spin val =>
      simp only []
      by_cases hval : val ≠ 0
      · rw [if_pos hval]
        have hs := card_init_update_same nthreads s.pc tid (Pc.spin s.barrier)
          (by rw [hpc]; simp) (by simp)
        refine ⟨?_, ?_, ?_⟩
        · simp only [hs]; exact hb
        · intro v hv hv0
          simp only [] at hv0 ⊢
          by_cases hvt : v = tid
          · subst hvt
            simp only [Function.update_same, Pc.spin.injEq] at hv0
            exact hv0
          · rw [Function.update_noteq hvt] at hv0
            exact hz v hv hv0
        · intro v hv hv0
          simp only [] at hv0 ⊢
          by_cases hvt : v = tid
          · subst hvt
            simp at hv0
          · rw [Function.update_noteq hvt] at hv0
            exact hr v hv hv0
      · rw [if_neg hval]
        have hval0 : val = 0 := by omega
        subst hval0
        have hs := card_init_update_same nthreads s.pc tid Pc.released
          (by rw [hpc]; simp) (by simp)
        refine ⟨?_, ?_, ?_⟩
        · simp only [hs]; exact hb
        · intro v hv hv0
          simp only [] at hv0 ⊢
          by_cases hvt : v = tid
          · subst hvt
            simp at hv0
          · rw [Function.update_noteq hvt] at hv0
            exact hz v hv hv0
        · intro v hv _
          exact hz tid htid hpc
    | released => exact ⟨hb, hz, hr⟩
  · rw [if_neg htid]; exact ⟨hb, hz, hr⟩

theorem barrier_inv_run (nthreads : Nat) (hN : nthreads < 2 ^ 32) :
    ∀ (sched : List Nat) (s : Shared), barrier_inv nthreads s →
      barrier_inv nthreads (barrier_run nthreads s sched) := by
  intro sched
  induction sched with
  | nil => intro s h; exact h
  | cons tid sched ih =>
    intro s h
    exact ih _ (barrier_inv_step nthreads hN s tid h)

theorem barrier_zero_step (nthreads : Nat) (s : Shared) (tid : Nat)
    (h : barrier_inv nthreads s) (h0 : s.barrier = 0) :
    (barrier_step nthreads s tid).barrier = 0 := by
  unfold barrier_step
  by_cases htid : tid < nthreads
  · rw [if_pos htid]
    cases hpc : s.pc tid with
    | init =>
      exfalso
      have hmem : tid ∈ (Finset.range nthreads).filter (fun v => s.pc v = Pc.init) := by
        simp [htid, hpc]
      have : 0 < ((Finset.range nthreads).filter (fun v => s.pc v = Pc.init)).card :=
        Finset.card_pos.mpr ⟨tid, hmem⟩
      have := h.1
      omega
    | spin val =>
      simp only []
      split_ifs <;> exact h0
    | released => exact h0
  · rw [if_neg htid]; exact h0

theorem barrier_zero_run (nthreads : Nat) (hN : nthreads < 2 ^ 32) :
    ∀ (sched : List Nat) (s : Shared), barrier_inv nthreads s → s.barrier = 0 →
      (barrier_run nthreads s sched).barrier = 0 := by
  intro sched
  induction sched with
  | nil => intro s _ h0; exact h0
  | cons tid sched ih =>
    intro s h h0
    exact ih _ (barrier_inv_step nthreads hN s tid h) (barrier_zero_step nthreads s tid h h0)

/-- The counter changes to zero in a step of the interleaving exactly when it
starts non-zero and ends zero. -/
theorem zero_hits_eq (nthreads : Nat) (hN : nthreads < 2 ^ 32) :
    ∀ (sched : List Nat) (s : Shared), barrier_inv nthreads s →
      zero_hits nthreads s sched =
        if s.barrier ≠ 0 ∧ (barrier_run nthreads s sched).barrier = 0 then 1 else 0 := by
  intro sched
  induction sched with
  | nil =>
    intro s _
    simp only [zero_hits, barrier_run]
    split_ifs with h
    · exact absurd h.2 h.1
    · rfl
  | cons tid sched ih =>
    intro s h
    have hs := barrier_inv_step nthreads hN s tid h
    rw [zero_hits, barrier_run, ih _ hs]
    by_cases h0 : s.barrier = 0
    · have h1 := barrier_zero_step nthreads s tid h h0
      simp [h0, h1]
    · by_cases h1 : (barrier_step nthreads s tid).barrier = 0
      · have h2 := barrier_zero_run nthreads hN sched _ hs h1
        simp [h0, h1, h2]
      · simp [h0, h1]

/-- C10. For `N` workers (`1 ≤ N ≤ 16`) and the counter initialised to `N`, after
every interleaving of the workers' atomic decrement and spin-read steps: a worker
that has left `barrier_wait` implies that every worker has already decremented the
counter, and the counter changed to zero in at most one step, in exactly one as
soon as some worker has left. -/
theorem barrier_releases_after_all (nthreads : Nat) (sched : List Nat)
    (h1 : 1 ≤ nthreads) (h16 : nthreads ≤ 16) :
    (∀ w, w < nthreads →
      (barrier_run nthreads (Shared.start nthreads) sched).pc w = Pc.released →
      ∀ v, v < nthreads → (barrier_run nthreads (Shared.start nthreads) sched).pc v ≠ Pc.init) ∧
    zero_hits nthreads (Shared.start nthreads) sched ≤ 1 ∧
    ((∃ w, w < nthreads ∧
        (barrier_run nthreads (Shared.start nthreads) sched).pc w = Pc.released) →
      zero_hits nthreads (Shared.start nthreads) sched = 1) := by
  have hN : nthreads < 2 ^ 32 := by omega
  have hinv := barrier_inv_run nthreads hN sched _ (barrier_inv_start nthreads)
  have hz := zero_hits_eq nthreads hN sched _ (barrier_inv_start nthreads)
  have hrel : ∀ w, w < nthreads →
      (barrier_run nthreads (Shared.start nthreads) sched).pc w = Pc.released →
      (barrier_run nthreads (Shared.start nthreads) sched).barrier = 0 :=
    fun w hw hr => hinv.2.2 w hw hr
  refine ⟨?_, ?_, ?_⟩
  · intro w hw hr v hv hinit
    have hb := hrel w hw hr
    have hmem : v ∈ (Finset.range nthreads).filter
        (fun v => (barrier_run nthreads (Shared.start nthreads) sched).pc v = Pc.init) := by
      simp [hv, hinit]
    have : 0 < ((Finset.range nthreads).filter
        (fun v => (barrier_run nthreads (Shared.start nthreads) sched).pc v = Pc.init)).card :=
      Finset.card_pos.mpr ⟨v, hmem⟩
    have := hinv.1
    omega
  · rw [hz]; split_ifs <;> omega
  · rintro ⟨w, hw, hr⟩
    have hb := hrel w hw hr
    have hs : (Shared.start nthreads).barrier ≠ 0 := by
      simp only [Shared.start]; omega
    rw [hz, if_pos ⟨hs, hb⟩]

/-- The statement above for two workers and the interleaving in which worker 0
decrements, worker 1 decrements, worker 0 re-reads the counter and leaves, and
worker 1 leaves. -/
theorem barrier_releases_after_all_witness :
    (barrier_run 2 (Shared.start 2) [0, 1, 0, 0, 1]).pc 0 = Pc.released ∧
    (∀ w, w < 2 →
      (barrier_run 2 (Shared.start 2) [0, 1, 0, 0, 1]).pc w = Pc.released →
      ∀ v, v < 2 → (barrier_run 2 (Shared.start 2) [0, 1, 0, 0, 1]).pc v ≠ Pc.init) ∧
    zero_hits 2 (Shared.start 2) [0, 1, 0, 0, 1] ≤ 1 ∧
    ((∃ w, w < 2 ∧ (barrier_run 2 (Shared.start 2) [0, 1, 0, 0, 1]).pc w = Pc.released) →
      zero_hits 2 (Shared.start 2) [0, 1, 0, 0, 1] = 1) :=
  ⟨by decide, barrier_releases_after_all 2 [0, 1, 0, 0, 1] (by decide) (by decide)⟩

end Bench
